import Mathlib

/-!
Verification of the pigato broker core (src/lib/Broker.js) through a shallow
embedding.

Modelling conventions:
* JS objects used as string-keyed maps (`this.services`, `this.workers`,
  `this.rmap`, `Controller.__reqs`, `Cache.m`) become insertion-ordered
  association lists `List (String × _)`; `_.each` iterates in insertion order,
  which the association list preserves.
* JS numbers become `Int` (timestamps, timeouts, concurrency) or `Nat`
  (attempt counters, fuel); truthiness of a number is modelled as `≠ 0`.
* Wall-clock reads (`new Date().getTime()`) become an explicit `now : Int`
  parameter, fixed for the duration of one handler invocation.
* `setImmediate` deferrals are recorded in the state (`sched`,
  `pendingCache`) instead of being executed inside the tick, mirroring the
  event loop: deferred work never runs inside the handler that scheduled it.
* `Math.random`-based worker picks (`_.random(0, len - 1)`) are modelled by an
  externally supplied stream `rand : Nat → Nat`, reduced modulo the pool size;
  theorems quantify over the stream.
* Outbound socket writes (`Broker.prototype.send`) append the frame list to a
  `sent` log.
* The synchronous `while(1)` dispatch loop is given explicit fuel; `none`
  means the fuel was exhausted before the loop left its body.
-/

namespace Pigato

/-- Modelled from the spec: protocol tag for client frames, from the missing
src/lib/mdp.js (§6: `CLIENT = 0x01 + "MDPC01"`); only its distinctness from
the other tags matters to Broker.js. -/
def CLIENT : String := "\x01MDPC01"

/-- Modelled from the spec: protocol tag for worker frames, from the missing
src/lib/mdp.js (§6: `WORKER = 0x02 + "MDPW01"`). -/
def WORKER : String := "\x02MDPW01"

/-- Modelled from the spec: command byte `W_READY` from the missing
src/lib/mdp.js; only distinctness from the other command bytes matters. -/
def W_READY : String := "1"

/-- Modelled from the spec: command byte `W_REQUEST` from src/lib/mdp.js. -/
def W_REQUEST : String := "2"

/-- Modelled from the spec: command byte `W_REPLY` from src/lib/mdp.js. -/
def W_REPLY : String := "3"

/-- Modelled from the spec: command byte `W_HEARTBEAT` from src/lib/mdp.js. -/
def W_HEARTBEAT : String := "4"

/-- Modelled from the spec: command byte `W_DISCONNECT` from src/lib/mdp.js. -/
def W_DISCONNECT : String := "5"

/-- Modelled from the spec: command byte `W_REPLY_PARTIAL` from
src/lib/mdp.js. -/
def W_REPLY_PARTIAL : String := "6"

/-- Modelled from the spec: command byte `W_REPLY_REJECT` from
src/lib/mdp.js. -/
def W_REPLY_REJECT : String := "7"

/-- Broker.js line 14: `var HEARTBEAT_LIVENESS = 3`. -/
def HEARTBEAT_LIVENESS : Int := 3

/-- Worker selection mode (`conf.dmode`): the two strings accepted by
`_wsel` (`'load'` and `'rand'`; any other string falls through to `null`,
which cannot arise here because `conf.dmode` is one of the two). -/
inductive Mode where
  | load
  | rand
deriving DecidableEq, Repr

/-- Broker configuration (constructor lines 25–31). `cache` enables the
response cache (`conf.cache`). -/
structure Conf where
  heartbeat : Int := 2500
  dmode : Mode := Mode.load
  rattempts : Nat := 5
  cache : Bool := false
deriving DecidableEq, Repr

/-- The default configuration object built in the Broker constructor. -/
def defaultConf : Conf := {}

/-- Parsed request options (client opts JSON, onClient lines 127–132).
Absent numeric fields are 0 (JS `undefined` and `0` behave identically under
the `||` defaulting used at lines 147–148). -/
structure ReqOpts where
  timeout : Int := 0
  retry : Int := 0
  persist : Bool := false
deriving DecidableEq, Repr

/-- Parsed reply options (worker reply opts JSON, onWorker line 229); only
the `cache` TTL field is read (line 244), absent = 0 (falsy). -/
structure ReplyOpts where
  cache : Int := 0
deriving DecidableEq, Repr

/-- Request record (onClient lines 141–153). `msg` keeps the original frame
list; `_rproc` re-sends `msg.slice(4)`. `workerId` is absent until the
request is assigned. -/
structure Request where
  service : String
  clientId : String
  attempts : Nat
  rid : String
  hash : Option String
  timeout : Int
  retry : Int
  ts : Int
  rejects : List String
  msg : List String
  opts : ReqOpts
  workerId : Option String
deriving DecidableEq, Repr

/-- Worker record (workerRequire lines 303–310). `opts.concurrency` is
inlined as `concurrency` (the only worker option the broker reads); it can
be overwritten by a worker heartbeat. `service` is set by
serviceWorkerAdd. -/
structure Worker where
  workerId : String
  liveness : Int
  rids : List String
  service : Option String
  concurrency : Int
deriving DecidableEq, Repr

/-- Service record (serviceRequire lines 396–400). -/
structure Service where
  name : String
  workers : List String
  q : List Request
deriving DecidableEq, Repr

/-- Cache entry (Cache.prototype.set lines 676–679). -/
structure CacheEntry where
  data : List String
  expire : Int
deriving DecidableEq, Repr

/-- A deferred asynchronous cache lookup: when `conf.cache` is on,
`_rhandle` (lines 550–566) starts `async.auto` whose `cache.get` defers via
`setImmediate`; the continuation runs on a later tick. -/
structure PendingCacheJob where
  service : String
  workerId : String
  req : Request
deriving DecidableEq, Repr

/-- Broker state: the string-keyed objects owned by the broker, the outbound
frame log, and the deferred-action queues. `ctrl` is the default
`Controller.__reqs` persistence map; `sched` records `setImmediate`
re-entries of `dispatch` (line 595). -/
structure BState where
  services : List (String × Service) := []
  workers : List (String × Worker) := []
  rmap : List (String × Request) := []
  ctrl : List (String × Request) := []
  cache : List (String × CacheEntry) := []
  sent : List (List String) := []
  sched : List (String × Option Mode) := []
  pendingCache : List PendingCacheJob := []
deriving DecidableEq, Repr

/-- Environment of one handler invocation: configuration, the wall clock,
the random stream, and the external library functions (JSON parsing, md5)
modelled abstractly. A JSON parse failure is folded into the parse
functions returning the default record (the code catches the exception and
substitutes `{}`). -/
structure Env where
  conf : Conf
  now : Int
  rand : Nat → Nat
  popts : String → ReqOpts
  ropts : String → ReplyOpts
  wopts : String → Option Int
  digest : String → String

/-! ### Association-list primitives (JS string-keyed objects) -/

/-- Lookup by key (`obj[k]`); keys in states built by the broker are
unique. -/
def alookup (m : List (String × α)) (k : String) : Option α :=
  match m with
  | [] => none
  | (k', v) :: rest => if k' = k then some v else alookup rest k

/-- Assignment `obj[k] = v`: overwrite in place if present, else append
(JS string keys keep insertion order). -/
def aset (m : List (String × α)) (k : String) (v : α) : List (String × α) :=
  match m with
  | [] => [(k, v)]
  | (k', v') :: rest => if k' = k then (k, v) :: rest else (k', v') :: aset rest k v

/-- Deletion `delete obj[k]` (keys are unique in a JS object, so removing
every pair with key `k` coincides with removing the single binding). -/
def adel (m : List (String × α)) (k : String) : List (String × α) :=
  match m with
  | [] => []
  | (k', v') :: rest => if k' = k then adel rest k else (k', v') :: adel rest k

@[simp] theorem alookup_nil (k : String) : alookup ([] : List (String × α)) k = none := rfl

theorem alookup_aset (m : List (String × α)) (k k' : String) (v : α) :
    alookup (aset m k v) k' = if k = k' then some v else alookup m k' := by
  induction m with
  | nil =>
    simp only [aset, alookup]
  | cons p rest ih =>
    obtain ⟨a, b⟩ := p
    by_cases hak : a = k
    · subst hak
      by_cases hk' : a = k'
      · subst hk'
        simp [aset, alookup]
      · simp [aset, alookup, hk']
    · by_cases hk' : a = k'
      · subst hk'
        simp only [aset, if_neg hak, alookup, if_pos rfl, ih]
        have : ¬ k = a := fun h => hak h.symm
        simp [this]
      · simp [aset, alookup, hak, hk', ih]

theorem alookup_adel (m : List (String × α)) (k k' : String) (h : k ≠ k') :
    alookup (adel m k) k' = alookup m k' := by
  induction m with
  | nil => simp [adel]
  | cons p rest ih =>
    obtain ⟨a, b⟩ := p
    by_cases hak : a = k
    · subst hak
      have hk' : ¬ a = k' := h
      simp [adel, alookup, hk', ih]
    · simp [adel, hak, alookup, ih]

theorem alookup_adel_self (m : List (String × α)) (k : String) :
    alookup (adel m k) k = none := by
  induction m with
  | nil => simp [adel]
  | cons p rest ih =>
    obtain ⟨a, b⟩ := p
    by_cases hak : a = k
    · simp [adel, hak, ih]
    · simp [adel, hak, alookup, ih]

theorem aset_of_lookup_eq (m : List (String × α)) (k : String) (v : α)
    (h : alookup m k = some v) : aset m k v = m := by
  induction m with
  | nil => simp [alookup] at h
  | cons p rest ih =>
    obtain ⟨a, b⟩ := p
    by_cases hak : a = k
    · subst hak
      have hb : b = v := by simpa [alookup] using h
      subst hb
      simp [aset]
    · simp only [alookup, if_neg hak] at h
      simp [aset, hak, ih h]

theorem adel_append (m m' : List (String × α)) (k : String) :
    adel (m ++ m') k = adel m k ++ adel m' k := by
  induction m with
  | nil => simp [adel]
  | cons p rest ih =>
    obtain ⟨a, b⟩ := p
    by_cases hak : a = k <;> simp [adel, hak, ih]

theorem adel_of_none (m : List (String × α)) (k : String)
    (h : alookup m k = none) : adel m k = m := by
  induction m with
  | nil => rfl
  | cons p rest ih =>
    obtain ⟨a, b⟩ := p
    simp only [alookup] at h
    by_cases hak : a = k
    · simp [hak] at h
    · simp only [adel, if_neg hak, List.cons.injEq, true_and]
      exact ih (by simpa [hak] using h)

theorem alookup_append_right (m : List (String × α)) (k : String) (v : α)
    (h : alookup m k = none) : alookup (m ++ [(k, v)]) k = some v := by
  induction m with
  | nil => simp [alookup]
  | cons p rest ih =>
    obtain ⟨a, b⟩ := p
    simp only [alookup] at h ⊢
    by_cases hak : a = k
    · simp [hak] at h
    · simp only [List.cons_append, alookup, if_neg hak] at *
      exact ih (by simpa [hak] using h)

theorem alookup_mem (m : List (String × α)) (k : String) (v : α)
    (h : alookup m k = some v) : (k, v) ∈ m := by
  induction m with
  | nil => simp [alookup] at h
  | cons p rest ih =>
    obtain ⟨a, b⟩ := p
    by_cases hak : a = k
    · subst hak
      have hb : b = v := by simpa [alookup] using h
      subst hb
      exact List.mem_cons_self _ _
    · simp only [alookup, if_neg hak] at h
      exact List.mem_cons_of_mem _ (ih h)

theorem mem_aset (m : List (String × α)) (k : String) (v : α) (p : String × α)
    (h : p ∈ aset m k v) : p ∈ m ∨ p = (k, v) := by
  induction m with
  | nil => simpa [aset] using h
  | cons hd rest ih =>
    obtain ⟨a, b⟩ := hd
    by_cases hak : a = k
    · simp only [aset, hak, if_true, List.mem_cons, eq_self_iff_true] at h
      rcases h with h | h
      · right; exact h
      · left; exact List.mem_cons_of_mem _ h
    · simp only [aset, if_neg hak, List.mem_cons] at h
      rcases h with h | h
      · left; simp [h]
      · rcases ih h with h' | h'
        · left; exact List.mem_cons_of_mem _ h'
        · right; exact h'

/-! ### String primitives

`String.prototype.indexOf(p) === 0` (prefix test), the `'*'` suffix test
and `slice(0, -1)` are modelled over the character list of the string so
that concrete states evaluate inside the kernel. -/

/-- Bool test that `p` is an initial run of `s` (character lists). -/
def strIsInit (p s : List Char) : Bool :=
  match p, s with
  | [], _ => true
  | _ :: _, [] => false
  | a :: p', b :: s' => a == b && strIsInit p' s'

/-- JS `s.indexOf(p) === 0`: `p` is a prefix of `s`. -/
def jsStartsWith (s p : String) : Bool := strIsInit p.data s.data

/-- JS `s[s.length - 1] === c` for a single character `c`, via the reversed
character list (an empty string has no last character and tests false). -/
def jsEndsWith (s suf : String) : Bool := strIsInit suf.data.reverse s.data.reverse

/-- JS `s.slice(0, -1)`: everything but the last character. -/
def strDropLast (s : String) : String := String.mk s.data.dropLast

/-! ### Cache (Broker.js lines 648–685) -/

/-- Cache.prototype.valid (lines 652–659): an entry with `expire > -1` is
invalid once `expire < now`. -/
def cacheValid (now : Int) (e : CacheEntry) : Bool :=
  if e.expire > -1 then
    if e.expire < now then false else true
  else true

/-- Cache.prototype.get (lines 661–673): lazily delete an invalid entry and
report no payload for it; otherwise report the stored data. Returns the
updated map together with the payload handed to the callback. -/
def cacheGet (m : List (String × CacheEntry)) (hash : String) (now : Int) :
    List (String × CacheEntry) × Option (List String) :=
  match alookup m hash with
  | none => (m, none)
  | some e =>
    if cacheValid now e then (m, some e.data)
    else (adel m hash, none)

/-- Cache.prototype.set (lines 675–684): store the payload with
`expire = now + opts.expire` when `opts.expire` is truthy, else `-1`. -/
def cacheSet (m : List (String × CacheEntry)) (hash : String)
    (data : List String) (ttl : Int) (now : Int) : List (String × CacheEntry) :=
  aset m hash { data := data, expire := if ttl ≠ 0 then now + ttl else -1 }

/-! ### Request validation (Broker.prototype.requestValidate, lines 282–296) -/

/-- requestValidate: `-1` for a missing or timed-out request, `-2` for a
request this worker already rejected once the attempt ceiling is reached,
`1` otherwise; the three tests run in this order. -/
def requestValidate (rattempts : Nat) (now : Int) (worker : Worker)
    (req : Option Request) : Int :=
  match req with
  | none => -1
  | some req =>
    if req.timeout > -1 ∧ now > req.ts + req.timeout then -1
    else if worker.workerId ∈ req.rejects ∧ req.attempts ≥ rattempts then -2
    else 1

/-! ### Registries (serviceRequire / workerRequire) -/

/-- Broker.prototype.serviceRequire (lines 391–404): return the existing
record or lazily create an empty one (appended, preserving key order). -/
def serviceRequire (ss : List (String × Service)) (name : String) :
    List (String × Service) × Service :=
  match alookup ss name with
  | some s => (ss, s)
  | none =>
    let s : Service := { name := name, workers := [], q := [] }
    (ss ++ [(name, s)], s)

/-- Broker.prototype.workerRequire (lines 298–314): return the existing
record or create one with liveness 3, no rids, concurrency 100. -/
def workerRequire (ws : List (String × Worker)) (wid : String) :
    List (String × Worker) × Worker :=
  match alookup ws wid with
  | some w => (ws, w)
  | none =>
    let w : Worker := { workerId := wid, liveness := HEARTBEAT_LIVENESS,
                        rids := [], service := none, concurrency := 100 }
    (ws ++ [(wid, w)], w)

/-! ### Worker selection (_wval / _wsel, lines 423–456) -/

/-- _wval (lines 423–438): a candidate id is valid if it is a truthy string
naming a registered worker whose assignment count does not exceed its
concurrency limit (when that limit is `> -1`). -/
def _wval (wmap : List (String × Worker)) (wid : Option String) : Option String :=
  match wid with
  | none => none
  | some wid =>
    if wid = "" then none
    else
      match alookup wmap wid with
      | none => none
      | some w =>
        if w.concurrency > -1 ∧ (w.rids.length : Int) > w.concurrency then none
        else some wid

/-- Current assignment count of a worker id, as read by the `load`
comparator (`self.workers[a].rids.length`, line 449); an id absent from the
registry counts 0 (the JS comparator would fault there, which the broker
never reaches). -/
def ridsLen (wmap : List (String × Worker)) (wid : String) : Nat :=
  ((alookup wmap wid).map (fun w => w.rids.length)).getD 0

/-- One insertion step of the `load`-mode sort. -/
def insertByLoad (wmap : List (String × Worker)) (x : String) :
    List String → List String
  | [] => [x]
  | y :: ys =>
    if ridsLen wmap x ≤ ridsLen wmap y then x :: y :: ys
    else y :: insertByLoad wmap x ys

/-- The in-place `service.workers.sort(...)` of `load` mode (lines 448–450),
modelled as a stable insertion sort ascending by assignment count (the JS
comparator is inconsistent on ties, so the tie order is unspecified there;
any stable order is a faithful refinement). -/
def sortByLoad (wmap : List (String × Worker)) : List String → List String
  | [] => []
  | x :: xs => insertByLoad wmap x (sortByLoad wmap xs)

/-- _wsel (lines 440–456): `rand` validates a uniformly drawn element (the
draw is the supplied `idx`, reduced into range); `load` sorts the pool by
assignment count and validates its head. Returns the chosen id and the
service with its (possibly re-ordered) worker pool, since the JS sort
mutates `service.workers`. -/
def _wsel (wmap : List (String × Worker)) (svc : Service) (mode : Mode)
    (idx : Nat) : Option String × Service :=
  match mode with
  | Mode.rand =>
    (_wval wmap (svc.workers.get? (idx % max 1 svc.workers.length)), svc)
  | Mode.load =>
    let ws := sortByLoad wmap svc.workers
    (_wval wmap ws.head?, { svc with workers := ws })

/-! ### Service/worker pairing (Broker.prototype.serviceWorkerSelect, lines
458–511) -/

/-- Result object `sws` of serviceWorkerSelect: either field may be null. -/
structure Sws where
  service : Option String
  workerId : Option String
deriving DecidableEq, Repr

/-- The match test of the `_.each` scan for a concrete service name
(lines 501–505): another service matches when it is a wildcard pattern
whose stem is a prefix of the concrete name and it has workers. The scan
separately skips the entry named `srvName` itself (lines 489–491). -/
def wcMatch (srvName : String) (n : String) (s : Service) : Bool :=
  if n = srvName then false
  else jsEndsWith n "*" && jsStartsWith srvName (strDropLast n) && !s.workers.isEmpty

/-- The match test of the `_.each` scan for a wildcard service name
(lines 493–499): another service matches when its name extends the wildcard
stem and it has queued work. -/
def wcMatchRev (srvName : String) (n : String) (s : Service) : Bool :=
  if n = srvName then false
  else jsStartsWith n (strDropLast srvName) && !s.q.isEmpty

/-- The `_.each(this.services, ...)` scan of serviceWorkerSelect
(lines 488–508), iterating in insertion order and stopping at the first
match (`return false`). In the concrete-name case the matched wildcard
service supplies the worker (and its pool may be re-sorted by `_wsel`); in
the wildcard case the matched service supplies the queue. -/
def swsScan (wmap : List (String × Worker)) (mode : Mode) (idx : Nat)
    (srvName : String) (iswc : Bool) :
    List (String × Service) → Sws → List (String × Service) × Sws
  | [], sws => ([], sws)
  | (n, s) :: rest, sws =>
    if iswc then
      if wcMatchRev srvName n s then
        ((n, s) :: rest, { sws with service := some n })
      else
        let r := swsScan wmap mode idx srvName iswc rest sws
        ((n, s) :: r.1, r.2)
    else
      if wcMatch srvName n s then
        let w := _wsel wmap s mode idx
        ((n, w.2) :: rest, { sws with workerId := w.1 })
      else
        let r := swsScan wmap mode idx srvName iswc rest sws
        ((n, s) :: r.1, r.2)

/-- serviceWorkerSelect (lines 458–511). Returns the possibly updated state
(`serviceRequire` may create the service; `_wsel` may re-order worker
pools) and `null` or an `sws` record. -/
def serviceWorkerSelect (idx : Nat) (st : BState) (srvName : String)
    (dmode : Mode) : BState × Option Sws :=
  let p := serviceRequire st.services srvName
  let st := { st with services := p.1 }
  let service := p.2
  if service.workers ≠ [] ∧ service.q ≠ [] then
    let w := _wsel st.workers service dmode idx
    ({ st with services := aset st.services srvName w.2 },
     some { service := some srvName, workerId := w.1 })
  else
    if jsEndsWith srvName "*" then
      if service.workers = [] then (st, none)
      else
        let w := _wsel st.workers service dmode idx
        let st := { st with services := aset st.services srvName w.2 }
        let r := swsScan st.workers dmode idx srvName true st.services
          { service := none, workerId := w.1 }
        ({ st with services := r.1 }, some r.2)
    else
      if service.q = [] then (st, none)
      else
        let r := swsScan st.workers dmode idx srvName false st.services
          { service := some srvName, workerId := none }
        ({ st with services := r.1 }, some r.2)

/-! ### Assignment and the dispatch loop (lines 513–599) -/

/-- _rproc (lines 513–529): record the request in the global request table,
assign it to the worker, mirror to persistence when requested, and send the
dispatch frame `[workerId, WORKER, W_REQUEST, clientId, service, ""] ++
msg.slice(4)`. The JS mutates the shared request object, so the request
table, the persistence store and the frame all see `workerId` set. -/
def _rproc (st : BState) (worker : Worker) (wid : String) (req : Request) :
    BState :=
  let req := { req with workerId := some wid }
  let st := { st with rmap := aset st.rmap req.rid req }
  let worker' := { worker with rids := worker.rids ++ [req.rid] }
  let st := { st with workers := aset st.workers wid worker' }
  let st := if req.opts.persist then { st with ctrl := aset st.ctrl req.rid req }
            else st
  let frame := [wid, WORKER, W_REQUEST, req.clientId, req.service, ""] ++ req.msg.drop 4
  { st with sent := st.sent ++ [frame] }

/-- _rhandle (lines 531–572): pop the head of the selected queue, count the
attempt, validate; `-2` pushes the request back to the tail, `-1` deletes it
from persistence, `1` assigns it (directly, or through the deferred
asynchronous cache lookup when the cache is enabled). The two `none`/empty
fallbacks are unreachable from dispatch, which only passes a selection with
a registered worker and a nonempty queue (the JS would fault there). -/
def _rhandle (env : Env) (st : BState) (svcName : String) (wid : String) :
    BState × Int :=
  match alookup st.workers wid with
  | none => (st, 0)
  | some worker =>
    let p := serviceRequire st.services svcName
    let st := { st with services := p.1 }
    let service := p.2
    match service.q with
    | [] => (st, 0)
    | req :: qrest =>
      let req := { req with attempts := req.attempts + 1 }
      let vld := requestValidate env.conf.rattempts env.now worker (some req)
      if vld ≤ 0 then
        if vld = -2 then
          let ss2 := aset st.services svcName { service with q := qrest ++ [req] }
          ({ st with services := ss2 }, vld)
        else
          let ss2 := aset st.services svcName { service with q := qrest }
          ({ st with services := ss2, ctrl := adel st.ctrl req.rid }, vld)
      else
        let ss2 := aset st.services svcName { service with q := qrest }
        let st := { st with services := ss2 }
        if env.conf.cache then
          let job : PendingCacheJob := { service := svcName, workerId := wid, req := req }
          ({ st with pendingCache := st.pendingCache ++ [job] }, 1)
        else
          (_rproc st worker wid req, 1)

/-- The `while(1)` body of Broker.prototype.dispatch (lines 577–592),
with explicit fuel; `none` means the loop had not exited when the fuel ran
out. Threads the `dmode` downgrade to `'rand'` after a `-2` and the
`tryagain` flag; returns the final state, flag and mode. -/
def dispatchLoop (env : Env) :
    Nat → BState → String → Option Mode → Bool →
    Option (BState × Bool × Option Mode)
  | 0, _, _, _, _ => none
  | Nat.succ fuel, st, srvName, dmode, tryagain =>
    match serviceWorkerSelect (env.rand fuel) st srvName (dmode.getD env.conf.dmode) with
    | (st1, none) => some (st1, tryagain, dmode)
    | (st1, some sws) =>
      match sws.service, sws.workerId with
      | some svc, some wid =>
        let r := _rhandle env st1 svc wid
        dispatchLoop env fuel r.1 srvName
          (if r.2 = -2 then some Mode.rand else dmode)
          (if r.2 < 0 then true else tryagain)
      | _, _ => some (st1, tryagain, dmode)

/-- Broker.prototype.dispatch (lines 574–599): run the selection loop; if
any iteration recorded "try again", schedule exactly one asynchronous
re-entry (`setImmediate`, lines 594–598), recorded in `sched`. -/
def dispatch (env : Env) (fuel : Nat) (st : BState) (srvName : String)
    (dmode : Option Mode) : Option BState :=
  (dispatchLoop env fuel st srvName dmode false).map fun r =>
    if r.2.1 then { r.1 with sched := r.1.sched ++ [(srvName, r.2.2)] } else r.1

/-! ### Worker deletion (Broker.prototype.workerDelete, lines 316–360) -/

/-- The `_.each(worker.rids, ...)` loop of workerDelete (lines 342–359):
for each assigned rid whose request is still in the request table, remove it
from the table, clear its assignment and — when the worker had a service —
push it back on that service's queue, then either re-dispatch (truthy
`retry`) or delete it from persistence. -/
def processRids (env : Env) (fuel : Nat) (worker : Worker) :
    BState → List String → Option BState
  | st, [] => some st
  | st, rid :: rest =>
    match alookup st.rmap rid with
    | none => processRids env fuel worker st rest
    | some req =>
      let st := { st with rmap := adel st.rmap rid }
      let req := { req with workerId := none }
      match worker.service with
      | none => processRids env fuel worker st rest
      | some srv =>
        let p := serviceRequire st.services srv
        let ss2 := aset p.1 srv { p.2 with q := p.2.q ++ [req] }
        let st := { st with services := ss2 }
        if req.retry ≠ 0 then
          match dispatch env fuel st srv none with
          | none => none
          | some st' => processRids env fuel worker st' rest
        else
          processRids env fuel worker { st with ctrl := adel st.ctrl rid } rest

/-- workerDelete (lines 316–360): optionally send a rude `W_DISCONNECT`,
remove the worker from its service's pool and from the registry, then
process its in-flight requests. -/
def workerDelete (env : Env) (fuel : Nat) (st : BState) (wid : String)
    (disconnect : Bool) : Option BState :=
  match alookup st.workers wid with
  | none => some { st with workers := adel st.workers wid }
  | some worker =>
    let st :=
      if disconnect then { st with sent := st.sent ++ [[wid, WORKER, W_DISCONNECT]] }
      else st
    let st :=
      match worker.service with
      | none => st
      | some srv =>
        let p := serviceRequire st.services srv
        let ss2 := aset p.1 srv { p.2 with workers := p.2.workers.filter (· ≠ wid) }
        { st with services := ss2 }
    let st := { st with workers := adel st.workers wid }
    processRids env fuel worker st worker.rids

/-! ### Registration and enqueue (lines 271–280, 406–421) -/

/-- Broker.prototype.serviceWorkerAdd (lines 406–421): register the worker
under the service name (once), record the service on the worker, and
dispatch. -/
def serviceWorkerAdd (env : Env) (fuel : Nat) (st : BState)
    (srvName wid : String) : Option BState :=
  let ps := serviceRequire st.services srvName
  let pw := workerRequire st.workers wid
  let st := { st with services := ps.1, workers := pw.1 }
  let st :=
    if wid ∈ ps.2.workers then st
    else { st with
      services := aset st.services srvName { ps.2 with workers := ps.2.workers ++ [wid] },
      workers := aset st.workers wid { pw.2 with service := some srvName } }
  dispatch env fuel st srvName none

/-- Broker.prototype.requestQueue (lines 271–280): append the request to its
service's queue, mirror to persistence when `opts.persist`, dispatch. -/
def requestQueue (env : Env) (fuel : Nat) (st : BState) (req : Request) :
    Option BState :=
  let p := serviceRequire st.services req.service
  let ss2 := aset p.1 req.service { p.2 with q := p.2.q ++ [req] }
  let st := { st with services := ss2 }
  let st := if req.opts.persist then { st with ctrl := aset st.ctrl req.rid req }
            else st
  dispatch env fuel st req.service none

/-! ### Protocol handlers (onClient lines 116–165, onWorker lines 167–265) -/

/-- Broker.prototype.onClient: a `W_REQUEST` builds a request record (empty
or missing service frame falls back to the literal `'UNK'`, line 123; the
fingerprint is computed only when the cache is enabled) and enqueues it; a
four-frame `W_HEARTBEAT` is forwarded to the worker currently assigned to
the rid, if any. -/
def onClient (env : Env) (fuel : Nat) (st : BState) (msg : List String) :
    Option BState :=
  let clientId := msg.getD 0 ""
  let t := msg.getD 2 ""
  if t = W_REQUEST then
    let srvName := if msg.getD 3 "" = "" then "UNK" else msg.getD 3 ""
    let rid := msg.getD 4 ""
    let opts := env.popts (msg.getD 6 "")
    let rhash := if env.conf.cache then some (srvName ++ env.digest (msg.getD 5 ""))
                 else none
    let req : Request := {
      service := srvName
      clientId := clientId
      attempts := 0
      rid := rid
      hash := rhash
      timeout := if opts.timeout ≠ 0 then opts.timeout else 60000
      retry := opts.retry
      ts := env.now
      rejects := []
      msg := msg
      opts := opts
      workerId := none }
    requestQueue env fuel st req
  else if t = W_HEARTBEAT then
    if msg.length = 4 then
      let rid := msg.getD 3 ""
      match alookup st.rmap rid with
      | some req =>
        match req.workerId with
        | some wid =>
          some { st with sent := st.sent ++ [[wid, WORKER, W_HEARTBEAT, clientId, "", rid]] }
        | none => some st
      | none => some st
    else some st
  else some st

/-- Broker.prototype.onWorker: READY registration (empty service name ⇒ rude
delete; duplicate READY from a known worker falls through with no action),
the unknown-worker guard, liveness reset, replies/rejects, heartbeat option
merge and disconnect. `worker.service` being unset feeds the JS property
access `this.serviceRequire(undefined)`, whose coerced key is the string
`"undefined"`. -/
def onWorker (env : Env) (fuel : Nat) (st : BState) (msg : List String) :
    Option BState :=
  let workerId := msg.getD 0 ""
  let t := msg.getD 2 ""
  let wready := (alookup st.workers workerId).isSome
  let pw := workerRequire st.workers workerId
  let st := { st with workers := pw.1 }
  let worker := pw.2
  if t = W_READY then
    let srvName := msg.getD 3 ""
    if srvName = "" then workerDelete env fuel st workerId true
    else if ¬wready then serviceWorkerAdd env fuel st srvName workerId
    else some st
  else if ¬wready then
    workerDelete env fuel st workerId true
  else
    let worker := { worker with liveness := HEARTBEAT_LIVENESS }
    let st := { st with workers := aset st.workers workerId worker }
    if t = W_REPLY ∨ t = W_REPLY_PARTIAL ∨ t = W_REPLY_REJECT then
      let rid := msg.getD 5 ""
      if rid ∉ worker.rids then workerDelete env fuel st workerId true
      else
        match alookup st.rmap rid with
        | none => workerDelete env fuel st workerId true
        | some req =>
          let p := serviceRequire st.services req.service
          let st := { st with services := p.1 }
          let service := p.2
          if t = W_REPLY_REJECT then
            let req := { req with rejects := req.rejects ++ [workerId],
                                  workerId := none }
            let st := { st with rmap := aset st.rmap rid req }
            let ss2 := aset st.services req.service { service with q := service.q ++ [req] }
            let st := { st with services := ss2 }
            let worker' := { worker with rids := worker.rids.filter (· ≠ rid) }
            let st := { st with workers := aset st.workers workerId worker' }
            dispatch env fuel st (worker.service.getD "undefined") (some Mode.rand)
          else
            let obj := msg.drop 6
            let frame := [req.clientId, CLIENT, t, "", req.rid] ++ obj
            let st := { st with sent := st.sent ++ [frame] }
            if t = W_REPLY then
              let worker' := { worker with rids := worker.rids.filter (· ≠ rid) }
              let st := { st with workers := aset st.workers workerId worker' }
              let st := { st with ctrl := adel st.ctrl req.rid }
              let ropts := env.ropts (msg.getD 8 "")
              let st :=
                if env.conf.cache ∧ ropts.cache ≠ 0 then
                  let m2 := cacheSet st.cache (req.hash.getD "null") obj ropts.cache env.now
                  { st with cache := m2 }
                else st
              dispatch env fuel st (worker.service.getD "undefined") none
            else some st
    else if t = W_HEARTBEAT then
      let c := env.wopts (msg.getD 4 "")
      let worker' := { worker with concurrency := c.getD worker.concurrency }
      some { st with workers := aset st.workers workerId worker' }
    else if t = W_DISCONNECT then
      workerDelete env fuel st workerId false
    else some st

/-! ### Shared concrete environment for witnesses and counterexamples -/

/-- A concrete environment: default configuration (cache off, `load` mode,
`rattempts = 5`), clock at 0, deterministic draw 0, JSON parses yielding the
default records (the code's fallback for malformed opts). -/
def env0 : Env :=
  { conf := {}, now := 0, rand := fun _ => 0,
    popts := fun _ => {}, ropts := fun _ => {}, wopts := fun _ => none,
    digest := fun _ => "" }

/-! ### C6: selection respects the concurrency limit -/

theorem _wval_some (wmap : List (String × Worker)) (o : Option String)
    (wid : String) (h : _wval wmap o = some wid) :
    ∃ w, alookup wmap wid = some w ∧
      ¬(w.concurrency > -1 ∧ (w.rids.length : Int) > w.concurrency) := by
  match o with
  | none => simp [_wval] at h
  | some x =>
    by_cases hx : x = ""
    · simp [_wval, hx] at h
    · cases hl : alookup wmap x with
      | none => simp [_wval, hx, hl] at h
      | some w =>
        by_cases hc : w.concurrency > -1 ∧ (w.rids.length : Int) > w.concurrency
        · simp [_wval, hx, hl, hc] at h
        · have h' : x = wid := by simpa [_wval, hx, hl, hc] using h
          subst h'
          exact ⟨w, hl, hc⟩

/-- C6: for every service and selection mode, worker selection never returns
a worker whose `rids.length` exceeds its concurrency limit when that limit
is non-negative, and a worker over its limit is judged ineligible (`null`)
by the `_wval` filter. -/
theorem c6_selection_respects_concurrency (wmap : List (String × Worker))
    (svc : Service) (mode : Mode) (idx : Nat) (wid : String)
    (hsel : (_wsel wmap svc mode idx).1 = some wid) :
    (∃ w, alookup wmap wid = some w ∧
        (0 ≤ w.concurrency → (w.rids.length : Int) ≤ w.concurrency)) ∧
    (∀ k w, alookup wmap k = some w → 0 ≤ w.concurrency →
        w.concurrency < (w.rids.length : Int) → _wval wmap (some k) = none) := by
  constructor
  · have h : ∃ w, alookup wmap wid = some w ∧
        ¬(w.concurrency > -1 ∧ (w.rids.length : Int) > w.concurrency) := by
      cases mode with
      | rand =>
        simp only [_wsel] at hsel
        exact _wval_some wmap _ wid hsel
      | load =>
        simp only [_wsel] at hsel
        exact _wval_some wmap _ wid hsel
    obtain ⟨w, hw, hc⟩ := h
    refine ⟨w, hw, fun h0 => ?_⟩
    by_contra hgt
    push_neg at hgt
    exact hc ⟨by omega, hgt⟩
  · intro k w hk h0 hlt
    have hcond : w.concurrency > -1 ∧ (w.rids.length : Int) > w.concurrency :=
      ⟨by omega, hlt⟩
    by_cases hke : k = ""
    · simp [_wval, hke]
    · simp [_wval, hke, hk, hcond]

/-- Worker registry for the C6 witness: `w` is under its limit, `v` is over
it. -/
def c6wmap : List (String × Worker) :=
  [("w", { workerId := "w", liveness := 3, rids := [], service := some "s",
           concurrency := 1 }),
   ("v", { workerId := "v", liveness := 3, rids := ["a", "b"], service := some "s",
           concurrency := 1 })]

/-- Service record for the C6 witness. -/
def c6svc : Service := { name := "s", workers := ["w", "v"], q := [] }

theorem c6_selection_respects_concurrency_witness :
    (_wsel c6wmap c6svc Mode.load 0).1 = some "w" ∧
    ((∃ w, alookup c6wmap "w" = some w ∧
        (0 ≤ w.concurrency → (w.rids.length : Int) ≤ w.concurrency)) ∧
     (∀ k w, alookup c6wmap k = some w → 0 ≤ w.concurrency →
        w.concurrency < (w.rids.length : Int) → _wval c6wmap (some k) = none)) :=
  ⟨by decide, c6_selection_respects_concurrency c6wmap c6svc Mode.load 0 "w" (by decide)⟩

/-! ### C7: the three outcomes of requestValidate -/

/-- C7: `requestValidate` returns `-1` exactly when the request is absent or
has a non-negative timeout that has elapsed; `-2` exactly when — the request
being present and not timed out, the earlier test taking precedence — the
worker is among the request's rejects and the attempt count has reached
`rattempts`; `1` in all remaining cases. The configured default for
`rattempts` is 5. -/
theorem c7_requestValidate_cases (rattempts : Nat) (now : Int) (worker : Worker)
    (req : Option Request) :
    (requestValidate rattempts now worker req = -1 ↔
      (req = none ∨ ∃ r, req = some r ∧ 0 ≤ r.timeout ∧ now > r.ts + r.timeout)) ∧
    (requestValidate rattempts now worker req = -2 ↔
      (∃ r, req = some r ∧ ¬(0 ≤ r.timeout ∧ now > r.ts + r.timeout) ∧
        worker.workerId ∈ r.rejects ∧ r.attempts ≥ rattempts)) ∧
    (requestValidate rattempts now worker req = 1 ↔
      (∃ r, req = some r ∧ ¬(0 ≤ r.timeout ∧ now > r.ts + r.timeout) ∧
        ¬(worker.workerId ∈ r.rejects ∧ r.attempts ≥ rattempts))) ∧
    defaultConf.rattempts = 5 := by
  cases req with
  | none =>
    refine ⟨by simp [requestValidate], by simp [requestValidate],
      by simp [requestValidate], rfl⟩
  | some r =>
    by_cases hA : r.timeout > -1 ∧ now > r.ts + r.timeout
    · have hA' : 0 ≤ r.timeout ∧ now > r.ts + r.timeout := ⟨by omega, hA.2⟩
      refine ⟨?_, ?_, ?_, rfl⟩ <;> simp [requestValidate, hA, hA']
    · have hA' : ¬(0 ≤ r.timeout ∧ now > r.ts + r.timeout) := by
        intro hc
        exact hA ⟨by omega, hc.2⟩
      by_cases hB : worker.workerId ∈ r.rejects ∧ r.attempts ≥ rattempts
      · refine ⟨?_, ?_, ?_, rfl⟩
        · simp [requestValidate, hA, hA', hB]
        · simp [requestValidate, hA, hA', hB]
          omega
        · simp [requestValidate, hA, hA', hB]
      · have h2 : worker.workerId ∈ r.rejects → r.attempts < rattempts := by
          intro hm
          by_contra hge
          push_neg at hge
          exact hB ⟨hm, hge⟩
        refine ⟨?_, ?_, ?_, rfl⟩
        · simp [requestValidate, hA, hA', hB, h2]
        · simp [requestValidate, hA, hA', hB, h2]
        · simp [requestValidate, hA, hA', hB, h2]
          exact ⟨fun h0 => by omega, h2⟩

/-! ### C8: cache lookup against the most recent set -/

/-- The single-entry cache map of the C8 counterexample: built by
`set("h", ["3"], ttl 5)` at time 0, so the entry expires at 5. -/
def c8set : List (String × CacheEntry) := cacheSet [] "h" ["3"] 5 0

/-- C8 counterexample: the entry written at time 0 with TTL 5 has
`expire = 5`, and a lookup at time 5 still returns the payload although
`now < expire` fails — the hit condition is `now ≤ expire`, not the claimed
strict inequality. -/
theorem c8_counterexample :
    alookup c8set "h" = some { data := ["3"], expire := 5 } ∧
    (cacheGet c8set "h" 5).2 = some ["3"] ∧ ¬((5 : Int) < 5) := by decide

/-- C8 amended: after `set(h, data, ttl)` at time `now0` with a truthy TTL
and a non-negative expiry `now0 + ttl`, a lookup of `h` at `now1` returns
exactly `data` iff `now1 ≤ now0 + ttl`; once `now0 + ttl < now1` the entry
is deleted lazily by the lookup (and no payload is returned). -/
theorem c8_amended (m : List (String × CacheEntry)) (h : String)
    (data : List String) (ttl now0 now1 : Int)
    (httl : ttl ≠ 0) (hpos : 0 ≤ now0 + ttl) :
    ((cacheGet (cacheSet m h data ttl now0) h now1).2 = some data ↔
      now1 ≤ now0 + ttl) ∧
    (now0 + ttl < now1 →
      (cacheGet (cacheSet m h data ttl now0) h now1).2 = none ∧
      alookup (cacheGet (cacheSet m h data ttl now0) h now1).1 h = none) := by
  have he : cacheSet m h data ttl now0 =
      aset m h { data := data, expire := now0 + ttl } := by
    simp [cacheSet, httl]
  have hl : alookup (aset m h { data := data, expire := now0 + ttl }) h =
      some { data := data, expire := now0 + ttl } := by
    rw [alookup_aset]
    simp
  by_cases hlt : now0 + ttl < now1
  · have hv : cacheValid now1 { data := data, expire := now0 + ttl } = false := by
      simp only [cacheValid]
      rw [if_pos (by omega : (now0 + ttl : Int) > -1), if_pos hlt]
    constructor
    · rw [he]
      simp [cacheGet, hl, hv]
      omega
    · intro hgt
      rw [he]
      simp [cacheGet, hl, hv, alookup_adel_self]
  · have hv : cacheValid now1 { data := data, expire := now0 + ttl } = true := by
      simp only [cacheValid]
      rw [if_pos (by omega : (now0 + ttl : Int) > -1), if_neg hlt]
    constructor
    · rw [he]
      simp [cacheGet, hl, hv]
      omega
    · intro hc
      exact absurd hc hlt

theorem c8_amended_witness :
    ((5 : Int) ≠ 0 ∧ (0 : Int) ≤ 0 + 5) ∧
    (((cacheGet (cacheSet [] "k" ["3"] 5 0) "k" 7).2 = some ["3"] ↔
        (7 : Int) ≤ 0 + 5) ∧
     ((0 : Int) + 5 < 7 →
        (cacheGet (cacheSet [] "k" ["3"] 5 0) "k" 7).2 = none ∧
        alookup (cacheGet (cacheSet [] "k" ["3"] 5 0) "k" 7).1 "k" = none)) :=
  ⟨⟨by decide, by decide⟩, c8_amended [] "k" ["3"] 5 0 7 (by decide) (by decide)⟩

/-! ### C2: the dispatch loop spins forever on a rejected request -/

/-- A request every selectable worker has rejected, past the attempt
ceiling, with no timeout (`timeout = -1`). -/
def spinReq (a : Nat) : Request :=
  { service := "s", clientId := "c", attempts := a, rid := "r", hash := none,
    timeout := -1, retry := 0, ts := 0, rejects := ["w"], msg := [], opts := {},
    workerId := none }

/-- The sole worker of service `s`, idle and far under its limit. -/
def spinWorker : Worker :=
  { workerId := "w", liveness := 3, rids := [], service := some "s",
    concurrency := 100 }

/-- The broker state in which dispatch spins: one service, one worker, one
queued request rejected by that worker with `attempts ≥ rattempts`. -/
def spinState (a : Nat) : BState :=
  { services := [("s", { name := "s", workers := ["w"], q := [spinReq a] })],
    workers := [("w", spinWorker)] }

theorem spin_select (idx : Nat) (a : Nat) (mode : Mode) :
    serviceWorkerSelect idx (spinState a) "s" mode =
      (spinState a, some { service := some "s", workerId := some "w" }) := by
  cases mode <;>
    simp [serviceWorkerSelect, serviceRequire, spinState, alookup, _wsel, _wval,
      sortByLoad, insertByLoad, ridsLen, spinWorker, aset, spinReq, Nat.mod_one]

theorem spin_rhandle (env : Env) (he : env.conf = defaultConf) (a : Nat)
    (ha : 5 ≤ a) : _rhandle env (spinState a) "s" "w" = (spinState (a + 1), -2) := by
  have hr : env.conf.rattempts = 5 := by rw [he]; rfl
  have hge : 5 ≤ a + 1 := by omega
  simp [_rhandle, spinState, alookup, serviceRequire, requestValidate, spinReq,
    spinWorker, aset, hr, hge]

theorem spin_loop (env : Env) (he : env.conf = defaultConf) :
    ∀ (fuel : Nat) (a : Nat) (dm : Option Mode) (ta : Bool), 5 ≤ a →
      dispatchLoop env fuel (spinState a) "s" dm ta = none := by
  intro fuel
  induction fuel with
  | zero => intro a dm ta _; rfl
  | succ n ih =>
    intro a dm ta ha
    simp only [dispatchLoop]
    rw [spin_select (env.rand n) a (dm.getD env.conf.dmode)]
    simp only [spin_rhandle env he a ha]
    norm_num
    exact ih (a + 1) (some Mode.rand) true (by omega)

/-- C2: the claim of bounded per-tick work fails. In `spinState 5` — one
worker that has rejected the only queued request, the attempt ceiling
reached, no timeout — every iteration of the synchronous `while(1)` body
pops the request, validates it to `-2` and pushes it straight back, so the
loop never exits: for every fuel bound the loop is still running (`none`),
for every random stream and any Env with the default configuration. The
`tryagain`/`setImmediate` deferral the claim describes is never reached. -/
theorem c2_dispatch_loops_forever (env : Env) (he : env.conf = defaultConf)
    (fuel : Nat) :
    dispatch env fuel (spinState 5) "s" none = none := by
  simp [dispatch, spin_loop env he fuel 5 none false (by omega)]

theorem c2_dispatch_loops_forever_witness :
    env0.conf = defaultConf ∧ dispatch env0 9 (spinState 5) "s" none = none :=
  ⟨rfl, c2_dispatch_loops_forever env0 rfl 9⟩

/-! ### C1 counterexample: rmap survives a final W_REPLY -/

/-- The single in-flight request of the C1 counterexample, assigned to
worker `w`. -/
def c1req : Request :=
  { service := "s", clientId := "c", attempts := 1, rid := "r1", hash := none,
    timeout := -1, retry := 0, ts := 0, rejects := [], msg := [], opts := {},
    workerId := some "w" }

/-- Broker state before the final W_REPLY of the C1 counterexample: `r1` is
assigned to `w`, present in the request table and mirrored in persistence;
the service queue is empty. -/
def c1st : BState :=
  { services := [("s", { name := "s", workers := ["w"], q := [] })],
    workers := [("w", { workerId := "w", liveness := 3, rids := ["r1"],
                        service := some "s", concurrency := 100 })],
    rmap := [("r1", c1req)],
    ctrl := [("r1", c1req)] }

/-- C1 counterexample: after the final `W_REPLY` for rid `r1` the rid has
been removed from the worker's `rids` (now `[]`), yet the global request
table `rmap` still contains it, with `workerId` still set to `w` — the
handler deletes from the persistence controller (`ctrl.rdel`) but never
from `rmap`. Both the claimed three-way equivalence and the claim that the
request table no longer contains the rid fail on this input. -/
theorem c1_counterexample :
    (onWorker env0 4 c1st ["w", WORKER, W_REPLY, "c", "", "r1", "ok"]).map
        (fun st => ((alookup st.rmap "r1").map (fun r => r.workerId),
                    (alookup st.workers "w").map (fun w => w.rids))) =
      some (some (some "w"), some []) := by decide

/-! ### C3 counterexample: a non-retry request stays on the queue -/

/-- The in-flight request of the C3 counterexample, with `retry = 0`. -/
def c3req : Request :=
  { service := "s", clientId := "c", attempts := 1, rid := "r1", hash := none,
    timeout := -1, retry := 0, ts := 0, rejects := [], msg := [], opts := {},
    workerId := some "w" }

/-- Broker state before the worker deletion of the C3 counterexample. -/
def c3st : BState :=
  { services := [("s", { name := "s", workers := ["w"], q := [] })],
    workers := [("w", { workerId := "w", liveness := 3, rids := ["r1"],
                        service := some "s", concurrency := 100 })],
    rmap := [("r1", c3req)],
    ctrl := [("r1", c3req)] }

/-- C3 counterexample: deleting worker `w` pushes its in-flight request with
`retry = 0` back onto the service queue (q = [r1] afterwards) — the code
pushes unconditionally before checking `retry` — while the claim says such
a request is dropped and in particular not placed back on the queue. The
request is deleted from persistence and from the request table. -/
theorem c3_counterexample :
    (workerDelete env0 4 c3st "w" true).map
        (fun st => ((alookup st.services "s").map (fun s => s.q.map (fun r => r.rid)),
                    (alookup st.ctrl "r1").isSome,
                    (alookup st.rmap "r1").isSome)) =
      some (some ["r1"], false, false) := by decide

/-! ### C4 counterexample: a duplicate READY is silently ignored -/

/-- Broker state of the C4 counterexample: worker `w` already registered
for service `s`. -/
def c4st : BState :=
  { services := [("s", { name := "s", workers := ["w"], q := [] })],
    workers := [("w", { workerId := "w", liveness := 3, rids := [],
                        service := some "s", concurrency := 100 })] }

/-- C4 counterexample: a second `W_READY` (service name `s2`, non-empty)
from the already-registered worker `w` leaves the state untouched — the
worker stays registered and no `DISCONNECT` frame is sent — whereas the
claim requires the broker to delete the worker and disconnect it. The
handler's `else if (!wready)` guard makes a duplicate READY fall through
with no action. -/
theorem c4_counterexample :
    onWorker env0 4 c4st ["w", WORKER, W_READY, "s2"] = some c4st ∧
    (alookup c4st.workers "w").isSome = true ∧ c4st.sent = [] := by decide

/-! ### C5 counterexample: concurrency 1 still admits a second request -/

/-- The queued second request of the C5 counterexample. -/
def c5req2 : Request :=
  { service := "s", clientId := "c", attempts := 0, rid := "r2", hash := none,
    timeout := -1, retry := 0, ts := 0, rejects := [], msg := ["c", "", "2", "s", "r2", "p", ""],
    opts := {}, workerId := none }

/-- Broker state of the C5 counterexample: worker `w` has `concurrency = 1`
and one request (`r1`) in flight; a second request (`r2`) for the same
service is queued. -/
def c5st : BState :=
  { services := [("s", { name := "s", workers := ["w"], q := [c5req2] })],
    workers := [("w", { workerId := "w", liveness := 3, rids := ["r1"],
                        service := some "s", concurrency := 1 })] }

/-- C5 counterexample: with `concurrency = 1` and `rids = [r1]` the worker
is still eligible (`_wval` tests `rids.length > concurrency`, and 1 > 1
fails), so one dispatch call immediately assigns the queued second request:
afterwards `rids = [r1, r2]` and the queue is empty, contradicting the
claim that the second request remains queued until the first final
W_REPLY. -/
theorem c5_counterexample :
    (dispatch env0 3 c5st "s" none).map
        (fun st => ((alookup st.workers "w").map (fun w => w.rids),
                    (alookup st.services "s").map (fun s => s.q))) =
      some (some ["r1", "r2"], some []) := by decide

/-! ### C4 amended: empty service name disconnects, duplicate READY is ignored -/

/-- The worker record freshly created by `workerRequire` for id `wid`. -/
def freshWorker (wid : String) : Worker :=
  { workerId := wid, liveness := HEARTBEAT_LIVENESS, rids := [],
    service := none, concurrency := 100 }

/-- C4 amended: a `W_READY` whose service-name frame is empty causes the
sender (here a previously unknown worker, which `workerRequire` has just
created) to be deleted with a rude `DISCONNECT`; a duplicate `W_READY` with
a non-empty service name from an already-registered worker is silently
ignored — the worker stays registered, nothing is sent and the state is
untouched. -/
theorem c4_amended (env : Env) (fuel : Nat) (st : BState) (wid srv : String) :
    ((alookup st.workers wid).isSome = true → srv ≠ "" →
      onWorker env fuel st [wid, WORKER, W_READY, srv] = some st) ∧
    (alookup st.workers wid = none →
      ∃ st', onWorker env fuel st [wid, WORKER, W_READY, ""] = some st' ∧
        st'.workers = st.workers ∧ alookup st'.workers wid = none ∧
        st'.sent = st.sent ++ [[wid, WORKER, W_DISCONNECT]]) := by
  constructor
  · intro h1 h2
    obtain ⟨w, hw⟩ := Option.isSome_iff_exists.mp h1
    simp [onWorker, List.getD, workerRequire, hw, h2, W_READY]
  · intro h0
    have hlk : alookup (st.workers ++ [(wid, freshWorker wid)]) wid =
        some (freshWorker wid) := alookup_append_right _ _ _ h0
    have hdel : adel (st.workers ++ [(wid, freshWorker wid)]) wid = st.workers := by
      rw [adel_append, adel_of_none st.workers wid h0]
      simp [adel]
    refine ⟨{ st with sent := st.sent ++ [[wid, WORKER, W_DISCONNECT]] },
      ?_, rfl, h0, rfl⟩
    simp only [freshWorker] at hlk hdel
    simp only [onWorker, List.getD, List.get?, Option.getD, workerRequire, h0]
    simp [workerDelete, hlk, hdel, processRids]

theorem c4_amended_witness :
    ((alookup c4st.workers "w").isSome = true ∧ ("s2" : String) ≠ "" ∧
      onWorker env0 3 c4st ["w", WORKER, W_READY, "s2"] = some c4st) ∧
    (alookup ({} : BState).workers "u" = none ∧
      ∃ st', onWorker env0 3 ({} : BState) ["u", WORKER, W_READY, ""] = some st' ∧
        st'.workers = ({} : BState).workers ∧ alookup st'.workers "u" = none ∧
        st'.sent = ({} : BState).sent ++ [["u", WORKER, W_DISCONNECT]]) :=
  ⟨⟨by decide, by decide,
    (c4_amended env0 3 c4st "w" "s2").1 (by decide) (by decide)⟩,
   ⟨rfl, (c4_amended env0 3 {} "u" "x").2 rfl⟩⟩

/-! ### C5 amended: the cap blocks only once rids.length exceeds concurrency -/

/-- The queued third request of the C5 amended scenario. -/
def c5req3 : Request :=
  { service := "s", clientId := "c", attempts := 0, rid := "r3", hash := none,
    timeout := -1, retry := 0, ts := 0, rejects := [],
    msg := ["c", "", "2", "s", "r3", "p", ""], opts := {}, workerId := none }

/-- Worker `w` of the C5 amended scenario: concurrency 1 with two requests
in flight, i.e. `rids.length` now exceeds the limit. -/
def c5w3 : Worker :=
  { workerId := "w", liveness := 3, rids := ["r1", "r2"], service := some "s",
    concurrency := 1 }

/-- Service record of the C5 amended scenario. -/
def c5svc3 : Service := { name := "s", workers := ["w"], q := [c5req3] }

/-- Broker state of the C5 amended scenario: `w` over its limit, a third
request queued, `r1` still in the request table for the coming reply. -/
def c5st3 : BState :=
  { services := [("s", c5svc3)],
    workers := [("w", c5w3)],
    rmap := [("r1", c1req)],
    ctrl := [] }

/-- C5 amended: the concurrency cap blocks a worker only once
`rids.length` strictly exceeds `concurrency`. First conjunct: if the sole
worker of a service is over its limit (or its id is the falsy empty
string), dispatch leaves the state untouched — the queued request stays
queued. Second conjunct: in the concrete over-limit state, the final
`W_REPLY` for `r1` frees a slot and the dispatcher immediately assigns the
queued third request (`rids` becomes `[r2, r3]`, queue empties). -/
theorem c5_amended (env : Env) (fuel : Nat) (st : BState) (s wid : String)
    (svc : Service) (worker : Worker) (dm : Option Mode)
    (hf : fuel ≠ 0) (hc : jsEndsWith s "*" = false)
    (hsvc : alookup st.services s = some svc) (hws : svc.workers = [wid])
    (hw : alookup st.workers wid = some worker)
    (h0 : 0 ≤ worker.concurrency)
    (hover : worker.concurrency < (worker.rids.length : Int)) :
    dispatch env fuel st s dm = some st ∧
    (onWorker env0 4 c5st3 ["w", WORKER, W_REPLY, "c", "", "r1", "ok"]).map
        (fun st2 => ((alookup st2.workers "w").map (fun w => w.rids),
                     (alookup st2.services "s").map (fun s2 => s2.q))) =
      some (some ["r2", "r3"], some []) := by
  constructor
  · have hval : _wval st.workers (some wid) = none := by
      by_cases hke : wid = ""
      · simp [_wval, hke]
      · have hcond : worker.concurrency > -1 ∧
            (worker.rids.length : Int) > worker.concurrency := ⟨by omega, hover⟩
        simp [_wval, hke, hw, hcond]
    have hwsel : ∀ m : Mode, _wsel st.workers svc m (env.rand (fuel - 1)) =
        (none, svc) := by
      intro m
      cases m with
      | load =>
        simp only [_wsel, hws, sortByLoad, insertByLoad, List.head?, hval]
        rw [← hws]
      | rand =>
        simp only [_wsel, hws]
        simp [hval, Nat.mod_one]
    obtain ⟨n, rfl⟩ : ∃ n, fuel = n + 1 := ⟨fuel - 1, by omega⟩
    have hae : aset st.services s svc = st.services := aset_of_lookup_eq _ _ _ hsvc
    by_cases hq : svc.q = []
    · have hsel : serviceWorkerSelect (env.rand n) st s (dm.getD env.conf.dmode) =
          (st, none) := by
        simp [serviceWorkerSelect, serviceRequire, hsvc, hq, hws, hc]
      simp [dispatch, dispatchLoop, hsel]
    · have hsel : serviceWorkerSelect (env.rand n) st s (dm.getD env.conf.dmode) =
          (st, some { service := some s, workerId := none }) := by
        have hws' : svc.workers ≠ [] := by simp [hws]
        simp only [serviceWorkerSelect, serviceRequire, hsvc]
        simp only [if_pos (And.intro hws' hq)]
        have := hwsel (dm.getD env.conf.dmode)
        simp only [Nat.add_sub_cancel] at this
        rw [this, hae]
      simp [dispatch, dispatchLoop, hsel]
  · decide

/-- Hypothesis bundle and conclusion of `c5_amended` at the concrete
over-limit state. -/
theorem c5_amended_witness :
    ((1 : Nat) ≠ 0 ∧ jsEndsWith "s" "*" = false ∧
      alookup c5st3.services "s" = some c5svc3 ∧ c5svc3.workers = ["w"] ∧
      alookup c5st3.workers "w" = some c5w3 ∧ 0 ≤ c5w3.concurrency ∧
      c5w3.concurrency < (c5w3.rids.length : Int)) ∧
    (dispatch env0 1 c5st3 "s" none = some c5st3 ∧
     (onWorker env0 4 c5st3 ["w", WORKER, W_REPLY, "c", "", "r1", "ok"]).map
        (fun st2 => ((alookup st2.workers "w").map (fun w => w.rids),
                     (alookup st2.services "s").map (fun s2 => s2.q))) =
      some (some ["r2", "r3"], some [])) :=
  ⟨⟨by decide, by decide, by decide, by decide, by decide, by decide, by decide⟩,
   c5_amended env0 1 c5st3 "s" "w" c5svc3 c5w3 none (by decide) (by decide)
     (by decide) (by decide) (by decide) (by decide) (by decide)⟩

/-! ### Dispatch is a no-op when nothing can be paired -/

/-- No wildcard service currently has workers: the `_.each` scan of
serviceWorkerSelect for a concrete name can then never supply a worker. -/
def NoWildcardWorkers (ss : List (String × Service)) : Prop :=
  ∀ p ∈ ss, jsEndsWith p.1 "*" = true → p.2.workers = []

theorem wcMatch_false_of_nww (s : String) (ss : List (String × Service))
    (hnw : NoWildcardWorkers ss) : ∀ p ∈ ss, wcMatch s p.1 p.2 = false := by
  intro p hp
  unfold wcMatch
  by_cases h1 : p.1 = s
  · simp [h1]
  · simp only [if_neg h1]
    cases hew : jsEndsWith p.1 "*" with
    | false => simp [hew]
    | true =>
      have hwrk := hnw p hp hew
      simp [hwrk]

theorem swsScan_no_match (wmap : List (String × Worker)) (mode : Mode)
    (idx : Nat) (s : String) :
    ∀ (l : List (String × Service)) (sws : Sws),
      (∀ p ∈ l, wcMatch s p.1 p.2 = false) →
      swsScan wmap mode idx s false l sws = (l, sws) := by
  intro l
  induction l with
  | nil => intro sws _; rfl
  | cons p rest ih =>
    intro sws hall
    obtain ⟨n, sv⟩ := p
    have h1 : wcMatch s n sv = false := hall (n, sv) (List.mem_cons_self _ _)
    simp only [swsScan, h1, Bool.false_eq_true, if_false]
    rw [ih sws (fun q hq => hall q (List.mem_cons_of_mem _ hq))]

theorem nww_aset (ss : List (String × Service)) (k : String) (v : Service)
    (hk : jsEndsWith k "*" = false) (hnw : NoWildcardWorkers ss) :
    NoWildcardWorkers (aset ss k v) := by
  intro p hp hew
  rcases mem_aset ss k v p hp with h | h
  · exact hnw p h hew
  · rw [h] at hew
    exact absurd hew (by simp [hk])

theorem nww_append (ss : List (String × Service)) (k : String) (v : Service)
    (hk : jsEndsWith k "*" = false) (hnw : NoWildcardWorkers ss) :
    NoWildcardWorkers (ss ++ [(k, v)]) := by
  intro p hp hew
  rcases List.mem_append.mp hp with h | h
  · exact hnw p h hew
  · have hpv : p = (k, v) := by simpa using h
    rw [hpv] at hew
    exact absurd hew (by simp [hk])

/-- If the concrete service `s` has no workers of its own and no wildcard
service has workers, one dispatch call finds nothing to pair and returns
the state unchanged (no re-entry is scheduled). -/
theorem dispatch_noop (env : Env) (fuel : Nat) (st : BState) (s : String)
    (dm : Option Mode) (svc : Service)
    (hf : fuel ≠ 0) (hc : jsEndsWith s "*" = false)
    (hs : alookup st.services s = some svc) (hw : svc.workers = [])
    (hnw : NoWildcardWorkers st.services) :
    dispatch env fuel st s dm = some st := by
  obtain ⟨n, rfl⟩ : ∃ n, fuel = n + 1 := ⟨fuel - 1, by omega⟩
  by_cases hq : svc.q = []
  · have hsel : serviceWorkerSelect (env.rand n) st s (dm.getD env.conf.dmode) =
        (st, none) := by
      simp [serviceWorkerSelect, serviceRequire, hs, hw, hq, hc]
    simp [dispatch, dispatchLoop, hsel]
  · have hscan := swsScan_no_match st.workers (dm.getD env.conf.dmode) (env.rand n) s
      st.services { service := some s, workerId := none }
      (wcMatch_false_of_nww s st.services hnw)
    have hsel : serviceWorkerSelect (env.rand n) st s (dm.getD env.conf.dmode) =
        (st, some { service := some s, workerId := none }) := by
      simp only [serviceWorkerSelect, serviceRequire, hs]
      rw [if_neg (by simp [hw])]
      rw [if_neg (by simp [hc])]
      rw [if_neg hq]
      rw [hscan]
    simp [dispatch, dispatchLoop, hsel]

/-- requestQueue on a concrete service with no eligible workers anywhere:
the request is appended to the (possibly freshly created) service queue and
stays there; the state is otherwise only extended by the optional
persistence mirror. -/
theorem requestQueue_spec (env : Env) (fuel : Nat) (st : BState) (req : Request)
    (hf : fuel ≠ 0) (hc : jsEndsWith req.service "*" = false)
    (hunk : ∀ u, alookup st.services req.service = some u → u.workers = [])
    (hnw : NoWildcardWorkers st.services) :
    ∃ st' u, requestQueue env fuel st req = some st' ∧
      alookup st'.services req.service = some u ∧
      u.q = ((alookup st.services req.service).map Service.q).getD [] ++ [req] ∧
      u.workers = [] := by
  cases hU : alookup st.services req.service with
  | some u =>
    have hwu : u.workers = [] := hunk u hU
    have hsr : serviceRequire st.services req.service = (st.services, u) := by
      simp [serviceRequire, hU]
    have hlk : alookup (aset st.services req.service { u with q := u.q ++ [req] })
        req.service = some { u with q := u.q ++ [req] } := by
      rw [alookup_aset]
      simp
    have hnw2 : NoWildcardWorkers
        (aset st.services req.service { u with q := u.q ++ [req] }) :=
      nww_aset _ _ _ hc hnw
    have key : ∀ stX : BState,
        stX.services = aset st.services req.service { u with q := u.q ++ [req] } →
        dispatch env fuel stX req.service none = some stX := by
      intro stX hX
      exact dispatch_noop env fuel stX req.service none { u with q := u.q ++ [req] }
        hf hc (hX ▸ hlk) hwu (hX ▸ hnw2)
    by_cases hp : req.opts.persist
    · refine ⟨{ st with
          services := aset st.services req.service { u with q := u.q ++ [req] },
          ctrl := aset st.ctrl req.rid req },
        { u with q := u.q ++ [req] }, ?_, hlk, by simp [hU], hwu⟩
      simp only [requestQueue, hsr, hp, if_true]
      exact key _ rfl
    · refine ⟨{ st with
          services := aset st.services req.service { u with q := u.q ++ [req] } },
        { u with q := u.q ++ [req] }, ?_, hlk, by simp [hU], hwu⟩
      simp only [requestQueue, hsr, hp, if_false]
      exact key _ rfl
  | none =>
    have hsr : serviceRequire st.services req.service =
        (st.services ++ [(req.service, { name := req.service, workers := [], q := [] })],
         { name := req.service, workers := [], q := [] }) := by
      simp [serviceRequire, hU]
    have hlk : alookup (aset
        (st.services ++ [(req.service, { name := req.service, workers := [], q := [] })])
        req.service { name := req.service, workers := [], q := [] ++ [req] })
        req.service = some { name := req.service, workers := [], q := [] ++ [req] } := by
      rw [alookup_aset]
      simp
    have hnw2 : NoWildcardWorkers (aset
        (st.services ++ [(req.service, { name := req.service, workers := [], q := [] })])
        req.service { name := req.service, workers := [], q := [] ++ [req] }) :=
      nww_aset _ _ _ hc (nww_append _ _ _ hc hnw)
    have key : ∀ stX : BState,
        stX.services = aset
          (st.services ++ [(req.service, { name := req.service, workers := [], q := [] })])
          req.service { name := req.service, workers := [], q := [] ++ [req] } →
        dispatch env fuel stX req.service none = some stX := by
      intro stX hX
      exact dispatch_noop env fuel stX req.service none
        { name := req.service, workers := [], q := [] ++ [req] }
        hf hc (hX ▸ hlk) rfl (hX ▸ hnw2)
    by_cases hp : req.opts.persist
    · refine ⟨{ st with
          services := aset
            (st.services ++ [(req.service, { name := req.service, workers := [], q := [] })])
            req.service { name := req.service, workers := [], q := [] ++ [req] },
          ctrl := aset st.ctrl req.rid req },
        { name := req.service, workers := [], q := [] ++ [req] }, ?_, hlk, by simp [hU], rfl⟩
      simp only [requestQueue, hsr, hp, if_true]
      exact key _ rfl
    · refine ⟨{ st with
          services := aset
            (st.services ++ [(req.service, { name := req.service, workers := [], q := [] })])
            req.service { name := req.service, workers := [], q := [] ++ [req] } },
        { name := req.service, workers := [], q := [] ++ [req] }, ?_, hlk, by simp [hU], rfl⟩
      simp only [requestQueue, hsr, hp, if_false]
      exact key _ rfl

/-! ### C10: empty or missing service name falls back to 'UNK' -/

/-- C10: a client `W_REQUEST` whose service-name frame is empty (or missing;
JS `undefined` is falsy like the empty string) is not rejected — the broker
substitutes the literal name `UNK` and enqueues the request under that
service. Stated for states in which service `UNK` has no workers and no
wildcard service has workers, so that the enqueued request is observably
still in the `UNK` queue after the dispatch call inside requestQueue. -/
theorem c10_empty_service_becomes_unk (env : Env) (fuel : Nat) (st : BState)
    (msg : List String)
    (hf : fuel ≠ 0) (hcache : env.conf.cache = false)
    (ht : msg.getD 2 "" = W_REQUEST) (hempty : msg.getD 3 "" = "")
    (hunk : ∀ u, alookup st.services "UNK" = some u → u.workers = [])
    (hnw : NoWildcardWorkers st.services) :
    ∃ st' u r, onClient env fuel st msg = some st' ∧
      alookup st'.services "UNK" = some u ∧
      u.q = ((alookup st.services "UNK").map Service.q).getD [] ++ [r] ∧
      r.service = "UNK" ∧ r.rid = msg.getD 4 "" ∧
      r.clientId = msg.getD 0 "" ∧ r.msg = msg ∧ r.workerId = none := by
  have hr := requestQueue_spec env fuel st
    { service := "UNK"
      clientId := msg.getD 0 ""
      attempts := 0
      rid := msg.getD 4 ""
      hash := none
      timeout := if (env.popts (msg.getD 6 "")).timeout ≠ 0 then
                   (env.popts (msg.getD 6 "")).timeout else 60000
      retry := (env.popts (msg.getD 6 "")).retry
      ts := env.now
      rejects := []
      msg := msg
      opts := env.popts (msg.getD 6 "")
      workerId := none }
    hf (show jsEndsWith "UNK" "*" = false by decide) hunk hnw
  obtain ⟨st', u, hrun, hlk, hq, hwu⟩ := hr
  refine ⟨st', u, _, ?_, hlk, hq, rfl, rfl, rfl, rfl, rfl⟩
  rw [← hrun]
  simp only [onClient, ht, hempty, hcache, eq_self_iff_true, if_true,
    Bool.false_eq_true, if_false]

theorem c10_empty_service_becomes_unk_witness :
    ((3 : Nat) ≠ 0 ∧ env0.conf.cache = false ∧
      (["c", CLIENT, W_REQUEST, "", "r9", "data", ""].getD 2 "") = W_REQUEST ∧
      (["c", CLIENT, W_REQUEST, "", "r9", "data", ""].getD 3 "") = "") ∧
    (∃ st' u r,
      onClient env0 3 ({} : BState) ["c", CLIENT, W_REQUEST, "", "r9", "data", ""] = some st' ∧
      alookup st'.services "UNK" = some u ∧
      u.q = ((alookup ({} : BState).services "UNK").map Service.q).getD [] ++ [r] ∧
      r.service = "UNK" ∧
      r.rid = (["c", CLIENT, W_REQUEST, "", "r9", "data", ""].getD 4 "") ∧
      r.clientId = (["c", CLIENT, W_REQUEST, "", "r9", "data", ""].getD 0 "") ∧
      r.msg = ["c", CLIENT, W_REQUEST, "", "r9", "data", ""] ∧ r.workerId = none) :=
  ⟨⟨by decide, rfl, by decide, by decide⟩,
   c10_empty_service_becomes_unk env0 3 {} _ (by decide) rfl (by decide) (by decide)
     (fun u h => Option.noConfusion h) (fun p hp => absurd hp (List.not_mem_nil p))⟩

/-! ### C3 amended: worker deletion requeues every request -/

/-- Membership of a request in the queue of service `s`. -/
def Qmem (s : String) (r : Request) (st : BState) : Prop :=
  ∃ svc, alookup st.services s = some svc ∧ r ∈ svc.q

/-- Invariant maintained while workerDelete drains a worker of service `s`
that was the service's only worker: the service exists with no workers and
no wildcard service has workers, so the dispatch calls inside the loop are
no-ops. -/
def DrainInv (s : String) (st : BState) : Prop :=
  (∃ svc, alookup st.services s = some svc ∧ svc.workers = []) ∧
  NoWildcardWorkers st.services

/-- The `_.each(worker.rids)` loop of workerDelete under `DrainInv`: every
rid still in the request table is removed from it, its request (assignment
cleared) ends up on the service queue, and persistence keeps exactly the
entries of requests with truthy `retry` (the rest are deleted); entries of
other rids are untouched. -/
theorem processRids_spec (env : Env) (fuel : Nat) (worker : Worker) (s : String)
    (hs : worker.service = some s) (hf : fuel ≠ 0)
    (hc : jsEndsWith s "*" = false) :
    ∀ (rids : List String) (st : BState),
      DrainInv s st → rids.Nodup →
      ∃ st', processRids env fuel worker st rids = some st' ∧
        DrainInv s st' ∧
        (∀ r, Qmem s r st → Qmem s r st') ∧
        (∀ rid, rid ∉ rids →
          alookup st'.rmap rid = alookup st.rmap rid ∧
          alookup st'.ctrl rid = alookup st.ctrl rid) ∧
        (∀ rid ∈ rids, ∀ req, alookup st.rmap rid = some req →
          alookup st'.rmap rid = none ∧
          Qmem s { req with workerId := none } st' ∧
          (req.retry = 0 → alookup st'.ctrl rid = none) ∧
          (req.retry ≠ 0 → alookup st'.ctrl rid = alookup st.ctrl rid)) := by
  intro rids
  induction rids with
  | nil =>
    intro st hinv _
    exact ⟨st, rfl, hinv, fun r h => h, fun rid _ => ⟨rfl, rfl⟩,
      fun rid h => absurd h (List.not_mem_nil _)⟩
  | cons rid0 rest ih =>
    intro st hinv hnd
    have hnd' : rest.Nodup := (List.nodup_cons.mp hnd).2
    have hni : rid0 ∉ rest := (List.nodup_cons.mp hnd).1
    cases hm : alookup st.rmap rid0 with
    | none =>
      obtain ⟨st', hrun, hinv', hqm, hpres, hmem⟩ := ih st hinv hnd'
      refine ⟨st', ?_, hinv', hqm, ?_, ?_⟩
      · simp only [processRids, hm]
        exact hrun
      · intro rid hrid
        exact hpres rid (fun hr => hrid (List.mem_cons_of_mem _ hr))
      · intro rid hrid req hreq
        rcases List.mem_cons.mp hrid with h | h
        · subst h
          rw [hm] at hreq
          cases hreq
        · exact hmem rid h req hreq
    | some req =>
      obtain ⟨⟨svc, hsvc, hwrk⟩, hnww⟩ := hinv
      have hlkB : alookup
          (aset st.services s { svc with q := svc.q ++ [{ req with workerId := none }] }) s
          = some { svc with q := svc.q ++ [{ req with workerId := none }] } := by
        rw [alookup_aset]
        simp
      have hnwB : NoWildcardWorkers
          (aset st.services s { svc with q := svc.q ++ [{ req with workerId := none }] }) :=
        nww_aset _ _ _ hc hnww
      -- the state after the head rid has been pushed back (retry ≠ 0 branch)
      by_cases hrt : req.retry = 0
      · -- else branch: also delete from persistence
        set stc : BState :=
          { st with
            rmap := adel st.rmap rid0,
            services := aset st.services s
              { svc with q := svc.q ++ [{ req with workerId := none }] },
            ctrl := adel st.ctrl rid0 } with hstc
        have hinvc : DrainInv s stc :=
          ⟨⟨{ svc with q := svc.q ++ [{ req with workerId := none }] }, hlkB, hwrk⟩, hnwB⟩
        obtain ⟨st', hrun, hinv', hqm, hpres, hmem⟩ := ih stc hinvc hnd'
        have hred : processRids env fuel worker st (rid0 :: rest) =
            processRids env fuel worker stc rest := by
          simp only [processRids, hm, hs, serviceRequire, hsvc]
          simp [hrt, hstc]
        refine ⟨st', by rw [hred]; exact hrun, hinv', ?_, ?_, ?_⟩
        · intro r hr
          apply hqm
          obtain ⟨svc0, hsvc0, hr0⟩ := hr
          rw [hsvc0] at hsvc
          cases hsvc
          exact ⟨_, hlkB, List.mem_append_left _ hr0⟩
        · intro rid hrid
          have h1 : rid ≠ rid0 := fun h => hrid (h ▸ List.mem_cons_self _ _)
          have h2 : rid ∉ rest := fun h => hrid (List.mem_cons_of_mem _ h)
          obtain ⟨hp1, hp2⟩ := hpres rid h2
          constructor
          · rw [hp1]
            exact alookup_adel _ _ _ (fun h => h1 h.symm)
          · rw [hp2]
            exact alookup_adel _ _ _ (fun h => h1 h.symm)
        · intro rid hrid req2 hreq2
          rcases List.mem_cons.mp hrid with h | h
          · subst h
            rw [hm] at hreq2
            cases hreq2
            obtain ⟨hp1, hp2⟩ := hpres rid hni
            refine ⟨?_, ?_, ?_, ?_⟩
            · rw [hp1]
              exact alookup_adel_self _ _
            · exact hqm _ ⟨_, hlkB, List.mem_append_right _ (List.mem_singleton_self _)⟩
            · intro _
              rw [hp2]
              exact alookup_adel_self _ _
            · intro hne
              exact absurd hrt hne
          · have h1 : rid ≠ rid0 := fun he => hni (he ▸ h)
            have hreqc : alookup stc.rmap rid = some req2 := by
              rw [hstc]
              simpa [alookup_adel _ _ _ (fun he => h1 he.symm)] using hreq2
            obtain ⟨hq1, hq2, hq3, hq4⟩ := hmem rid h req2 hreqc
            refine ⟨hq1, hq2, hq3, ?_⟩
            intro hne
            rw [hq4 hne, hstc]
            exact alookup_adel _ _ _ (fun he => h1 he.symm)
      · -- retry ≠ 0: dispatch (a no-op) runs instead of the persistence delete
        set stb : BState :=
          { st with
            rmap := adel st.rmap rid0,
            services := aset st.services s
              { svc with q := svc.q ++ [{ req with workerId := none }] } } with hstb
        have hinvb : DrainInv s stb :=
          ⟨⟨{ svc with q := svc.q ++ [{ req with workerId := none }] }, hlkB, hwrk⟩, hnwB⟩
        have hdisp : dispatch env fuel stb s none = some stb :=
          dispatch_noop env fuel stb s none
            { svc with q := svc.q ++ [{ req with workerId := none }] }
            hf hc hlkB hwrk hnwB
        obtain ⟨st', hrun, hinv', hqm, hpres, hmem⟩ := ih stb hinvb hnd'
        have hred : processRids env fuel worker st (rid0 :: rest) =
            processRids env fuel worker stb rest := by
          simp only [processRids, hm, hs, serviceRequire, hsvc]
          simp [hrt, hstb, hdisp]
        refine ⟨st', by rw [hred]; exact hrun, hinv', ?_, ?_, ?_⟩
        · intro r hr
          apply hqm
          obtain ⟨svc0, hsvc0, hr0⟩ := hr
          rw [hsvc0] at hsvc
          cases hsvc
          exact ⟨_, hlkB, List.mem_append_left _ hr0⟩
        · intro rid hrid
          have h1 : rid ≠ rid0 := fun h => hrid (h ▸ List.mem_cons_self _ _)
          have h2 : rid ∉ rest := fun h => hrid (List.mem_cons_of_mem _ h)
          obtain ⟨hp1, hp2⟩ := hpres rid h2
          constructor
          · rw [hp1]
            exact alookup_adel _ _ _ (fun h => h1 h.symm)
          · rw [hp2]
        · intro rid hrid req2 hreq2
          rcases List.mem_cons.mp hrid with h | h
          · subst h
            rw [hm] at hreq2
            cases hreq2
            obtain ⟨hp1, hp2⟩ := hpres rid hni
            refine ⟨?_, ?_, ?_, ?_⟩
            · rw [hp1]
              exact alookup_adel_self _ _
            · exact hqm _ ⟨_, hlkB, List.mem_append_right _ (List.mem_singleton_self _)⟩
            · intro h0
              exact absurd h0 hrt
            · intro _
              exact hp2
          · have h1 : rid ≠ rid0 := fun he => hni (he ▸ h)
            have hreqc : alookup stb.rmap rid = some req2 := by
              rw [hstb]
              simpa [alookup_adel _ _ _ (fun he => h1 he.symm)] using hreq2
            obtain ⟨hq1, hq2, hq3, hq4⟩ := hmem rid h req2 hreqc
            exact ⟨hq1, hq2, hq3, fun hne => hq4 hne⟩

/-- C3 amended: when a worker holding a registered service is deleted
(liveness expiry or disconnect; `d` is the rude flag), each of its in-flight
requests still in the request table is removed from the table, its
assignment cleared, and pushed back onto that service's queue
unconditionally; the `retry` flag only decides what happens next — a truthy
`retry` invokes the dispatcher (here a no-op: the deleted worker was the
service's only one and no wildcard service has workers) and leaves
persistence alone, while `retry = 0` deletes the request from persistence
but still leaves it on the queue. -/
theorem c3_amended (env : Env) (fuel : Nat) (st : BState) (wid s : String)
    (worker : Worker) (svc : Service) (d : Bool)
    (hf : fuel ≠ 0) (hc : jsEndsWith s "*" = false)
    (hw : alookup st.workers wid = some worker)
    (hs : worker.service = some s)
    (hsvc : alookup st.services s = some svc)
    (honly : svc.workers.filter (· ≠ wid) = [])
    (hnw : NoWildcardWorkers st.services)
    (hnd : worker.rids.Nodup) :
    ∃ st', workerDelete env fuel st wid d = some st' ∧
      (∀ rid ∈ worker.rids, ∀ req, alookup st.rmap rid = some req →
        alookup st'.rmap rid = none ∧
        Qmem s { req with workerId := none } st' ∧
        (req.retry = 0 → alookup st'.ctrl rid = none) ∧
        (req.retry ≠ 0 → alookup st'.ctrl rid = alookup st.ctrl rid)) := by
  have hlkC : alookup
      (aset st.services s { svc with workers := svc.workers.filter (· ≠ wid) }) s
      = some { svc with workers := svc.workers.filter (· ≠ wid) } := by
    rw [alookup_aset]
    simp
  have hwC : ({ svc with workers := svc.workers.filter (· ≠ wid) } : Service).workers
      = [] := honly
  have hnwC : NoWildcardWorkers
      (aset st.services s { svc with workers := svc.workers.filter (· ≠ wid) }) :=
    nww_aset _ _ _ hc hnw
  cases d with
  | false =>
    have hinv : DrainInv s { st with
        services := aset st.services s { svc with workers := svc.workers.filter (· ≠ wid) },
        workers := adel st.workers wid } :=
      ⟨⟨_, hlkC, hwC⟩, hnwC⟩
    obtain ⟨st', hrun, hinv', hqm, hpres, hmem⟩ :=
      processRids_spec env fuel worker s hs hf hc worker.rids _ hinv hnd
    refine ⟨st', ?_, fun rid hrid req hreq => hmem rid hrid req hreq⟩
    simp only [workerDelete, hw, hs, serviceRequire, hsvc, Bool.false_eq_true, if_false]
    exact hrun
  | true =>
    have hinv : DrainInv s { st with
        sent := st.sent ++ [[wid, WORKER, W_DISCONNECT]],
        services := aset st.services s { svc with workers := svc.workers.filter (· ≠ wid) },
        workers := adel st.workers wid } :=
      ⟨⟨_, hlkC, hwC⟩, hnwC⟩
    obtain ⟨st', hrun, hinv', hqm, hpres, hmem⟩ :=
      processRids_spec env fuel worker s hs hf hc worker.rids _ hinv hnd
    refine ⟨st', ?_, fun rid hrid req hreq => hmem rid hrid req hreq⟩
    simp only [workerDelete, hw, hs, serviceRequire, hsvc, if_true]
    exact hrun

/-- In-flight request `r1` (non-retry) of the C3 amended witness. -/
def c3areq1 : Request :=
  { service := "s", clientId := "c", attempts := 1, rid := "r1", hash := none,
    timeout := -1, retry := 0, ts := 0, rejects := [], msg := [], opts := {},
    workerId := some "w" }

/-- In-flight request `r2` (retry) of the C3 amended witness. -/
def c3areq2 : Request :=
  { service := "s", clientId := "c", attempts := 1, rid := "r2", hash := none,
    timeout := -1, retry := 1, ts := 0, rejects := [], msg := [], opts := {},
    workerId := some "w" }

/-- Worker of the C3 amended witness, holding both requests. -/
def c3aw : Worker :=
  { workerId := "w", liveness := 3, rids := ["r1", "r2"], service := some "s",
    concurrency := 100 }

/-- Service record of the C3 amended witness. -/
def c3asvc : Service := { name := "s", workers := ["w"], q := [] }

/-- Broker state of the C3 amended witness. -/
def c3ast : BState :=
  { services := [("s", c3asvc)],
    workers := [("w", c3aw)],
    rmap := [("r1", c3areq1), ("r2", c3areq2)],
    ctrl := [("r1", c3areq1), ("r2", c3areq2)] }

theorem c3_amended_witness :
    ((2 : Nat) ≠ 0 ∧ jsEndsWith "s" "*" = false ∧
     alookup c3ast.workers "w" = some c3aw ∧ c3aw.service = some "s" ∧
     alookup c3ast.services "s" = some c3asvc ∧
     c3asvc.workers.filter (· ≠ "w") = [] ∧
     NoWildcardWorkers c3ast.services ∧ c3aw.rids.Nodup) ∧
    (∃ st', workerDelete env0 2 c3ast "w" true = some st' ∧
      (∀ rid ∈ c3aw.rids, ∀ req, alookup c3ast.rmap rid = some req →
        alookup st'.rmap rid = none ∧
        Qmem "s" { req with workerId := none } st' ∧
        (req.retry = 0 → alookup st'.ctrl rid = none) ∧
        (req.retry ≠ 0 → alookup st'.ctrl rid = alookup c3ast.ctrl rid))) :=
  ⟨⟨by decide, by decide, by decide, by decide, by decide, by decide,
    by unfold NoWildcardWorkers; decide, by decide⟩,
   c3_amended env0 2 c3ast "w" "s" c3aw c3asvc true (by decide) (by decide)
     (by decide) (by decide) (by decide) (by decide)
     (by unfold NoWildcardWorkers; decide) (by decide)⟩

/-! ### Preservation of a completed rid across a dispatch call (for C1) -/

/-- `rid` does not occur among the queued requests of any service. -/
def RidFreeQ (rid : String) (ss : List (String × Service)) : Prop :=
  ∀ p ∈ ss, ∀ r ∈ p.2.q, r.rid ≠ rid

/-- What one dispatch call cannot change about a rid that is not queued
anywhere: its request-table and persistence entries, the set of registered
worker ids, and whether the rid is among any worker's assignments. -/
def RidPres (rid : String) (st st' : BState) : Prop :=
  alookup st'.rmap rid = alookup st.rmap rid ∧
  alookup st'.ctrl rid = alookup st.ctrl rid ∧
  (∀ k, (alookup st'.workers k).isSome = (alookup st.workers k).isSome) ∧
  (∀ k w', alookup st'.workers k = some w' →
    ∃ w, alookup st.workers k = some w ∧ ((rid ∈ w'.rids) ↔ (rid ∈ w.rids)))

theorem ridpres_refl (rid : String) (st : BState) : RidPres rid st st :=
  ⟨rfl, rfl, fun _ => rfl, fun _ w' hw' => ⟨w', hw', Iff.rfl⟩⟩

theorem ridpres_trans {rid : String} {st1 st2 st3 : BState}
    (h12 : RidPres rid st1 st2) (h23 : RidPres rid st2 st3) :
    RidPres rid st1 st3 := by
  obtain ⟨a12, b12, c12, d12⟩ := h12
  obtain ⟨a23, b23, c23, d23⟩ := h23
  refine ⟨a23.trans a12, b23.trans b12, fun k => (c23 k).trans (c12 k), ?_⟩
  intro k w' hw'
  obtain ⟨w2, hw2, i2⟩ := d23 k w' hw'
  obtain ⟨w1, hw1, i1⟩ := d12 k w2 hw2
  exact ⟨w1, hw1, i2.trans i1⟩

theorem ridpres_of_fields {rid : String} {st st' : BState}
    (h1 : st'.rmap = st.rmap) (h2 : st'.ctrl = st.ctrl)
    (h3 : st'.workers = st.workers) : RidPres rid st st' := by
  refine ⟨by rw [h1], by rw [h2], fun k => by rw [h3], ?_⟩
  intro k w' hw'
  rw [h3] at hw'
  exact ⟨w', hw', Iff.rfl⟩

theorem ridfreeq_aset (ss : List (String × Service)) (k : String) (v : Service)
    (rid : String) (hv : ∀ r ∈ v.q, r.rid ≠ rid) (hss : RidFreeQ rid ss) :
    RidFreeQ rid (aset ss k v) := by
  intro p hp r hr
  rcases mem_aset ss k v p hp with h | h
  · exact hss p h r hr
  · rw [h] at hr
    exact hv r hr

theorem ridfreeq_append_empty (ss : List (String × Service)) (k : String)
    (rid : String) (hss : RidFreeQ rid ss) :
    RidFreeQ rid (ss ++ [(k, { name := k, workers := [], q := [] })]) := by
  intro p hp r hr
  rcases List.mem_append.mp hp with h | h
  · exact hss p h r hr
  · have hpe : p = (k, { name := k, workers := [], q := [] }) := by simpa using h
    rw [hpe] at hr
    simp at hr

theorem ridfreeq_lookup (ss : List (String × Service)) (s : String)
    (svc : Service) (rid : String) (hss : RidFreeQ rid ss)
    (h : alookup ss s = some svc) : ∀ r ∈ svc.q, r.rid ≠ rid :=
  fun r hr => hss (s, svc) (alookup_mem _ _ _ h) r hr

/-- `_wsel` only re-orders a service's worker pool; name and queue are
untouched. -/
theorem _wsel_sv (wmap : List (String × Worker)) (sv : Service) (m : Mode)
    (idx : Nat) :
    ((_wsel wmap sv m idx).2).q = sv.q ∧ ((_wsel wmap sv m idx).2).name = sv.name := by
  cases m <;> simp [_wsel]

/-- Every entry of the services list returned by the scan has the name and
queue of an entry of the input list (`_wsel` may have re-sorted one worker
pool). -/
theorem swsScan_q (wmap : List (String × Worker)) (mode : Mode) (idx : Nat)
    (s : String) (iswc : Bool) :
    ∀ (l : List (String × Service)) (sws : Sws) (p : String × Service),
      p ∈ (swsScan wmap mode idx s iswc l sws).1 →
      ∃ p' ∈ l, p.1 = p'.1 ∧ p.2.q = p'.2.q := by
  cases iswc with
  | true =>
    intro l
    induction l with
    | nil =>
      intro sws p hp
      simp [swsScan] at hp
    | cons hd rest ih =>
      intro sws p hp
      obtain ⟨n, sv⟩ := hd
      by_cases hm : wcMatchRev s n sv
      · simp only [swsScan, hm, if_true] at hp
        exact ⟨p, hp, rfl, rfl⟩
      · simp only [swsScan, hm, Bool.false_eq_true, if_false] at hp
        cases hp with
        | head => exact ⟨(n, sv), List.mem_cons_self _ _, rfl, rfl⟩
        | tail _ hmem =>
          obtain ⟨p', hp', h1, h2⟩ := ih sws p hmem
          exact ⟨p', List.mem_cons_of_mem _ hp', h1, h2⟩
  | false =>
    intro l
    induction l with
    | nil =>
      intro sws p hp
      simp [swsScan] at hp
    | cons hd rest ih =>
      intro sws p hp
      obtain ⟨n, sv⟩ := hd
      by_cases hm : wcMatch s n sv
      · simp only [swsScan, hm, if_true] at hp
        cases hp with
        | head => exact ⟨(n, sv), List.mem_cons_self _ _, rfl,
            (_wsel_sv wmap sv mode idx).1⟩
        | tail _ hmem => exact ⟨p, List.mem_cons_of_mem _ hmem, rfl, rfl⟩
      · simp only [swsScan, hm, Bool.false_eq_true, if_false] at hp
        cases hp with
        | head => exact ⟨(n, sv), List.mem_cons_self _ _, rfl, rfl⟩
        | tail _ hmem =>
          obtain ⟨p', hp', h1, h2⟩ := ih sws p hmem
          exact ⟨p', List.mem_cons_of_mem _ hp', h1, h2⟩

theorem ridfreeq_scan (wmap : List (String × Worker)) (mode : Mode) (idx : Nat)
    (s : String) (iswc : Bool) (l : List (String × Service)) (sws : Sws)
    (rid : String) (hss : RidFreeQ rid l) :
    RidFreeQ rid (swsScan wmap mode idx s iswc l sws).1 := by
  intro p hp r hr
  obtain ⟨p', hp', _, hq⟩ := swsScan_q wmap mode idx s iswc l sws p hp
  exact hss p' hp' r (hq ▸ hr)

/-- serviceWorkerSelect touches only the services map, and there only
worker pools (plus possibly a freshly created empty service): every other
state component is returned unchanged, and a rid absent from all queues
stays absent. -/
theorem sws_preserves (idx : Nat) (st : BState) (s : String) (m : Mode) :
    (serviceWorkerSelect idx st s m).1.workers = st.workers ∧
    (serviceWorkerSelect idx st s m).1.rmap = st.rmap ∧
    (serviceWorkerSelect idx st s m).1.ctrl = st.ctrl ∧
    (serviceWorkerSelect idx st s m).1.sent = st.sent ∧
    (serviceWorkerSelect idx st s m).1.sched = st.sched ∧
    (serviceWorkerSelect idx st s m).1.pendingCache = st.pendingCache ∧
    ∀ rid, RidFreeQ rid st.services →
      RidFreeQ rid (serviceWorkerSelect idx st s m).1.services := by
  cases hsr : alookup st.services s with
  | some svc =>
    have hq : ∀ rid, RidFreeQ rid st.services → ∀ r ∈ svc.q, r.rid ≠ rid :=
      fun rid h => ridfreeq_lookup st.services s svc rid h hsr
    simp only [serviceWorkerSelect, serviceRequire, hsr]
    split_ifs with h1 h2 h3 h4
    · refine ⟨rfl, rfl, rfl, rfl, rfl, rfl, fun rid hfree => ?_⟩
      refine ridfreeq_aset _ _ _ _ ?_ hfree
      rw [(_wsel_sv st.workers svc m idx).1]
      exact hq rid hfree
    · exact ⟨rfl, rfl, rfl, rfl, rfl, rfl, fun rid hfree => hfree⟩
    · refine ⟨rfl, rfl, rfl, rfl, rfl, rfl, fun rid hfree => ?_⟩
      refine ridfreeq_scan _ _ _ _ _ _ _ _ ?_
      refine ridfreeq_aset _ _ _ _ ?_ hfree
      rw [(_wsel_sv st.workers svc m idx).1]
      exact hq rid hfree
    · exact ⟨rfl, rfl, rfl, rfl, rfl, rfl, fun rid hfree => hfree⟩
    · refine ⟨rfl, rfl, rfl, rfl, rfl, rfl, fun rid hfree => ?_⟩
      exact ridfreeq_scan _ _ _ _ _ _ _ _ hfree
  | none =>
    have hres : serviceWorkerSelect idx st s m =
        ({ st with services :=
            st.services ++ [(s, { name := s, workers := [], q := [] })] }, none) := by
      simp [serviceWorkerSelect, serviceRequire, hsr]
    rw [hres]
    exact ⟨rfl, rfl, rfl, rfl, rfl, rfl, fun rid hfree =>
      ridfreeq_append_empty _ _ _ hfree⟩

/-- One `_rhandle` step can touch the popped request (whose rid is not
`rid`, since `rid` is queued nowhere): the absent rid's request-table and
persistence entries, the worker registry domain and the rid's assignment
status all survive, and the rid stays out of every queue. -/
theorem rhandle_preserves (env : Env) (st : BState) (svcN wid rid : String)
    (hfree : RidFreeQ rid st.services) :
    RidFreeQ rid (_rhandle env st svcN wid).1.services ∧
    RidPres rid st (_rhandle env st svcN wid).1 := by
  cases hw : alookup st.workers wid with
  | none =>
    simp only [_rhandle, hw]
    exact ⟨hfree, ridpres_refl rid st⟩
  | some worker =>
    cases hsr : alookup st.services svcN with
    | none =>
      simp only [_rhandle, hw, serviceRequire, hsr]
      exact ⟨ridfreeq_append_empty _ _ _ hfree, ridpres_of_fields rfl rfl rfl⟩
    | some svc =>
      cases hq : svc.q with
      | nil =>
        simp only [_rhandle, hw, serviceRequire, hsr, hq]
        exact ⟨hfree, ridpres_refl rid st⟩
      | cons req qrest =>
        have hsvcq : ∀ r ∈ svc.q, r.rid ≠ rid := ridfreeq_lookup _ _ _ _ hfree hsr
        have hrne : req.rid ≠ rid := hsvcq req (by rw [hq]; exact List.mem_cons_self _ _)
        have hqrest : ∀ r ∈ qrest, r.rid ≠ rid := fun r hr =>
          hsvcq r (by rw [hq]; exact List.mem_cons_of_mem _ hr)
        simp only [_rhandle, hw, serviceRequire, hsr, hq]
        by_cases h1 : requestValidate env.conf.rattempts env.now worker
            (some { req with attempts := req.attempts + 1 }) ≤ 0
        · by_cases h2 : requestValidate env.conf.rattempts env.now worker
              (some { req with attempts := req.attempts + 1 }) = -2
          · simp only [if_pos h1, if_pos h2]
            refine ⟨?_, ridpres_of_fields rfl rfl rfl⟩
            refine ridfreeq_aset _ _ _ _ ?_ hfree
            intro r hr
            rcases List.mem_append.mp hr with h | h
            · exact hqrest r h
            · have : r = { req with attempts := req.attempts + 1 } := by simpa using h
              rw [this]
              exact hrne
          · simp only [if_pos h1, if_neg h2]
            refine ⟨?_, ?_⟩
            · refine ridfreeq_aset _ _ _ _ ?_ hfree
              exact fun r hr => hqrest r hr
            · refine ⟨rfl, ?_, fun _ => rfl, fun k w' hw' => ⟨w', hw', Iff.rfl⟩⟩
              exact alookup_adel _ _ _ (fun h => hrne h)
        · simp only [if_neg h1]
          by_cases hcc : env.conf.cache
          · simp only [hcc, if_true]
            refine ⟨?_, ridpres_of_fields rfl rfl rfl⟩
            exact ridfreeq_aset _ _ _ _ (fun r hr => hqrest r hr) hfree
          · simp only [hcc, Bool.false_eq_true, if_false, _rproc]
            by_cases hp : req.opts.persist <;>
              [simp only [hp, if_true]; simp only [hp, Bool.false_eq_true, if_false]] <;>
            · refine ⟨ridfreeq_aset _ _ _ _ hqrest hfree, ?_, ?_, ?_, ?_⟩
              · rw [alookup_aset, if_neg hrne]
              · first
                | rw [alookup_aset, if_neg hrne]
                | rfl
              · intro k
                rw [alookup_aset]
                by_cases hk : wid = k
                · subst hk
                  rw [if_pos rfl, hw]
                  rfl
                · rw [if_neg hk]
              · intro k w' hw'
                rw [alookup_aset] at hw'
                by_cases hk : wid = k
                · subst hk
                  rw [if_pos rfl] at hw'
                  cases hw'
                  refine ⟨worker, hw, ?_⟩
                  simp only [List.mem_append, List.mem_singleton]
                  constructor
                  · rintro (h | h)
                    · exact h
                    · exact absurd h.symm hrne
                  · exact fun h => Or.inl h
                · rw [if_neg hk] at hw'
                  exact ⟨w', hw', Iff.rfl⟩

/-- The whole dispatch loop preserves everything `RidPres` names, for a rid
absent from all queues, and keeps it absent. -/
theorem dispatchLoop_preserves (env : Env) (rid : String) :
    ∀ (fuel : Nat) (st : BState) (s : String) (dm : Option Mode) (ta : Bool)
      (r : BState × Bool × Option Mode),
      dispatchLoop env fuel st s dm ta = some r →
      RidFreeQ rid st.services →
      RidFreeQ rid r.1.services ∧ RidPres rid st r.1 := by
  intro fuel
  induction fuel with
  | zero =>
    intro st s dm ta r h _
    cases h
  | succ n ih =>
    intro st s dm ta r h hfree
    rcases hsel : serviceWorkerSelect (env.rand n) st s (dm.getD env.conf.dmode)
      with ⟨st1, o⟩
    have hsw := sws_preserves (env.rand n) st s (dm.getD env.conf.dmode)
    rw [hsel] at hsw
    obtain ⟨hwk, hrm, hct, _, _, _, hfr⟩ := hsw
    have hfree1 : RidFreeQ rid st1.services := hfr rid hfree
    have pres1 : RidPres rid st st1 := ridpres_of_fields hrm hct hwk
    simp only [dispatchLoop, hsel] at h
    cases o with
    | none =>
      cases h
      exact ⟨hfree1, pres1⟩
    | some sws =>
      obtain ⟨os, ow⟩ := sws
      cases os with
      | none =>
        cases ow <;> cases h <;> exact ⟨hfree1, pres1⟩
      | some svc =>
        cases ow with
        | none =>
          cases h
          exact ⟨hfree1, pres1⟩
        | some wid =>
          have hrh := rhandle_preserves env st1 svc wid rid hfree1
          obtain ⟨hfree2, pres2⟩ := hrh
          obtain ⟨hfree3, pres3⟩ := ih (_rhandle env st1 svc wid).1 s _ _ r h hfree2
          exact ⟨hfree3, ridpres_trans (ridpres_trans pres1 pres2) pres3⟩

/-- `dispatch` (loop plus the optional `setImmediate` record) preserves a
completed rid's surroundings. -/
theorem dispatch_preserves (env : Env) (rid : String) (fuel : Nat)
    (st : BState) (s : String) (dm : Option Mode) (st' : BState)
    (h : dispatch env fuel st s dm = some st')
    (hfree : RidFreeQ rid st.services) :
    RidFreeQ rid st'.services ∧ RidPres rid st st' := by
  unfold dispatch at h
  rcases hdl : dispatchLoop env fuel st s dm false with _ | r
  · rw [hdl] at h
    cases h
  · rw [hdl] at h
    obtain ⟨h1, h2⟩ := dispatchLoop_preserves env rid fuel st s dm false r hdl hfree
    have h' : (if r.2.1 = true then { r.1 with sched := r.1.sched ++ [(s, r.2.2)] }
        else r.1) = st' := by
      simpa using h
    by_cases hta : r.2.1 = true
    · rw [if_pos hta] at h'
      cases h'
      exact ⟨h1, h2⟩
    · rw [if_neg hta] at h'
      cases h'
      exact ⟨h1, h2⟩

theorem serviceRequire_ridfree (ss : List (String × Service)) (name : String)
    (rid : String) (h : RidFreeQ rid ss) :
    RidFreeQ rid (serviceRequire ss name).1 := by
  unfold serviceRequire
  cases hl : alookup ss name with
  | some svc => exact h
  | none => exact ridfreeq_append_empty _ _ _ h

/-- C1 amended: processing a final `W_REPLY` for rid `frid` (assigned to
worker `wid`, recorded in the request table, not queued anywhere) removes
the rid from the worker's `rids` and deletes it from the persistence
controller, but the global request table still contains the original
request record — whose `workerId` is still set — because the handler never
deletes `rmap[rid]`; consequently the claimed three-way equivalence does
not hold after the reply. The dispatch call at the end of the handler
cannot resurrect the rid. -/
theorem c1_amended (env : Env) (fuel : Nat) (st st' : BState)
    (wid cid frid : String) (worker : Worker) (req : Request)
    (rest : List String)
    (hcache : env.conf.cache = false)
    (hw : alookup st.workers wid = some worker)
    (hrid : frid ∈ worker.rids)
    (hreq : alookup st.rmap frid = some req)
    (hkey : req.rid = frid)
    (hfree : RidFreeQ frid st.services)
    (hrun : onWorker env fuel st ([wid, WORKER, W_REPLY, cid, "", frid] ++ rest)
      = some st') :
    alookup st'.rmap frid = some req ∧
    alookup st'.ctrl frid = none ∧
    ∃ w', alookup st'.workers wid = some w' ∧ frid ∉ w'.rids := by
  have e0 : ([wid, WORKER, W_REPLY, cid, "", frid] ++ rest).getD 0 "" = wid := rfl
  have e2 : ([wid, WORKER, W_REPLY, cid, "", frid] ++ rest).getD 2 "" = W_REPLY := rfl
  have e3 : ([wid, WORKER, W_REPLY, cid, "", frid] ++ rest).getD 3 "" = cid := rfl
  have e5 : ([wid, WORKER, W_REPLY, cid, "", frid] ++ rest).getD 5 "" = frid := rfl
  have ed : ([wid, WORKER, W_REPLY, cid, "", frid] ++ rest).drop 6 = rest := rfl
  have n1 : ¬(W_REPLY = W_READY) := by decide
  have n2 : ¬(W_REPLY = W_REPLY_REJECT) := by decide
  have n3 : ¬(W_REPLY = W_REPLY_PARTIAL) := by decide
  simp only [onWorker, e0, e2, e3, e5, ed, n1, n2, n3, hw, workerRequire,
    Option.isSome_some, Bool.not_true, Bool.false_eq_true, if_false,
    eq_self_iff_true, if_true, true_or, or_true, or_false, false_or, hrid,
    not_true, hreq, hcache, false_and, Bool.false_and, ite_false, not_false_iff,
    ite_true] at hrun
  obtain ⟨hfq, hrm, hct, hdom, hiff⟩ :=
    dispatch_preserves env frid fuel _ _ none st' hrun
      (serviceRequire_ridfree st.services req.service frid hfree)
  refine ⟨?_, ?_, ?_⟩
  · rw [hrm]
    exact hreq
  · rw [hct]
    show alookup (adel st.ctrl req.rid) frid = none
    rw [hkey]
    exact alookup_adel_self _ _
  · have hsome : (alookup st'.workers wid).isSome = true := by
      rw [hdom wid]
      show (alookup (aset _ wid _) wid).isSome = true
      rw [alookup_aset]
      simp
    obtain ⟨w', hw'⟩ := Option.isSome_iff_exists.mp hsome
    obtain ⟨w5, hw5, hif⟩ := hiff wid w' hw'
    rw [alookup_aset, if_pos rfl] at hw5
    cases hw5
    refine ⟨w', hw', fun hmem => ?_⟩
    have hmem5 := hif.mp hmem
    rw [List.mem_filter] at hmem5
    simp at hmem5

/-- The broker state after the C1 amended witness reply (the `getD`
default is never taken: the handler returns `some`). -/
def c1post : BState :=
  (onWorker env0 4 c1st (["w", WORKER, W_REPLY, "c", "", "r1"] ++ ["ok"])).getD {}

/-- The worker record of the C1 amended witness. -/
def c1wkr : Worker :=
  { workerId := "w", liveness := 3, rids := ["r1"], service := some "s",
    concurrency := 100 }

theorem c1_amended_witness :
    (env0.conf.cache = false ∧
     alookup c1st.workers "w" = some c1wkr ∧
     "r1" ∈ c1wkr.rids ∧
     alookup c1st.rmap "r1" = some c1req ∧ c1req.rid = "r1" ∧
     RidFreeQ "r1" c1st.services ∧
     onWorker env0 4 c1st (["w", WORKER, W_REPLY, "c", "", "r1"] ++ ["ok"])
       = some c1post) ∧
    (alookup c1post.rmap "r1" = some c1req ∧
     alookup c1post.ctrl "r1" = none ∧
     ∃ w', alookup c1post.workers "w" = some w' ∧ "r1" ∉ w'.rids) :=
  ⟨⟨rfl, by decide, by decide, by decide, by decide, by unfold RidFreeQ; decide,
    by decide⟩,
   c1_amended env0 4 c1st c1post "w" "c" "r1" c1wkr
     c1req ["ok"] rfl (by decide) (by decide) (by decide) (by decide)
     (by unfold RidFreeQ; decide) (by decide)⟩

/-! ### C9: concrete names borrow workers from the first matching wildcard -/

/-- If the insertion-order scan has a first match — a wildcard service,
other than the scanned name itself, whose stem is a prefix of the concrete
name and which has workers — then the scan pairs the caller's sws with the
worker chosen (by `_wsel`) from that first match. -/
theorem swsScan_finds (wmap : List (String × Worker)) (mode : Mode) (idx : Nat)
    (s : String) :
    ∀ (l : List (String × Service)) (sws : Sws) (n : String) (ms : Service),
      l.find? (fun p => wcMatch s p.1 p.2) = some (n, ms) →
      (swsScan wmap mode idx s false l sws).2 =
        { sws with workerId := (_wsel wmap ms mode idx).1 } := by
  intro l
  induction l with
  | nil =>
    intro sws n ms h
    simp at h
  | cons hd rest ih =>
    intro sws n ms h
    obtain ⟨a, sv⟩ := hd
    by_cases hm : wcMatch s a sv
    · rw [@List.find?_cons_of_pos _ (fun q : String × Service => wcMatch s q.1 q.2)
        (a, sv) rest hm] at h
      cases h
      simp [swsScan, hm]
    · rw [@List.find?_cons_of_neg _ (fun q : String × Service => wcMatch s q.1 q.2)
        (a, sv) rest hm] at h
      simp only [swsScan, hm, Bool.false_eq_true, if_false]
      exact ih sws n ms h

/-- C9: for a concrete (non-wildcard) service name whose record has a
non-empty queue and no workers of its own, serviceWorkerSelect scans the
registered services in insertion order and returns the local service paired
with the worker chosen from the first wildcard service whose stem (the name
before the trailing `*`) is a prefix of the concrete name and which has
workers. -/
theorem c9_concrete_uses_first_wildcard (idx : Nat) (st : BState)
    (srvName : String) (mode : Mode) (svc ms : Service) (n : String)
    (hconc : jsEndsWith srvName "*" = false)
    (hsvc : alookup st.services srvName = some svc)
    (hwrk : svc.workers = [])
    (hq : svc.q ≠ [])
    (hfind : st.services.find? (fun p => wcMatch srvName p.1 p.2) = some (n, ms)) :
    (serviceWorkerSelect idx st srvName mode).2 =
      some { service := some srvName,
             workerId := (_wsel st.workers ms mode idx).1 } := by
  simp only [serviceWorkerSelect, serviceRequire, hsvc]
  rw [if_neg (by simp [hwrk])]
  rw [if_neg (by simp [hconc])]
  rw [if_neg hq]
  rw [swsScan_finds st.workers mode idx srvName st.services
    { service := some srvName, workerId := none } n ms hfind]

/-- The queued request of the C9 witness. -/
def c9req : Request :=
  { service := "foo", clientId := "c", attempts := 0, rid := "r9", hash := none,
    timeout := -1, retry := 0, ts := 0, rejects := [],
    msg := ["c", "", "2", "foo", "r9", "p", ""], opts := {}, workerId := none }

/-- The concrete service of the C9 witness: queued work, no workers. -/
def c9svc : Service := { name := "foo", workers := [], q := [c9req] }

/-- A wildcard service whose stem does not match `foo`. -/
def c9bar : Service := { name := "bar*", workers := ["wb"], q := [] }

/-- The first matching wildcard service for `foo` in the witness state. -/
def c9ms : Service := { name := "fo*", workers := ["wf"], q := [] }

/-- A later wildcard service that also matches `foo` but is not first. -/
def c9f : Service := { name := "f*", workers := ["wg"], q := [] }

/-- Worker pool of the C9 witness. -/
def c9workers : List (String × Worker) :=
  [("wb", { workerId := "wb", liveness := 3, rids := [], service := some "bar*",
            concurrency := 100 }),
   ("wf", { workerId := "wf", liveness := 3, rids := [], service := some "fo*",
            concurrency := 100 }),
   ("wg", { workerId := "wg", liveness := 3, rids := [], service := some "f*",
            concurrency := 100 })]

/-- Broker state of the C9 witness. -/
def c9st : BState :=
  { services := [("foo", c9svc), ("bar*", c9bar), ("fo*", c9ms), ("f*", c9f)],
    workers := c9workers }

theorem c9_concrete_uses_first_wildcard_witness :
    (jsEndsWith "foo" "*" = false ∧
     alookup c9st.services "foo" = some c9svc ∧
     c9svc.workers = [] ∧ c9svc.q ≠ [] ∧
     c9st.services.find? (fun p => wcMatch "foo" p.1 p.2) = some ("fo*", c9ms)) ∧
    ((serviceWorkerSelect 0 c9st "foo" Mode.load).2 =
      some { service := some "foo",
             workerId := (_wsel c9st.workers c9ms Mode.load 0).1 } ∧
     (_wsel c9st.workers c9ms Mode.load 0).1 = some "wf") :=
  ⟨⟨by decide, by decide, by decide, by decide, by decide⟩,
   c9_concrete_uses_first_wildcard 0 c9st "foo" Mode.load c9svc c9ms "fo*"
     (by decide) (by decide) (by decide) (by decide) (by decide),
   by decide⟩

end Pigato
